import Mathlib

/-!
Shallow embedding of the Havvarsel custom integration's core logic
(custom_components/havvarsel/api.py and coordinator.py).

Modelling conventions:
* JSON values decoded by the transport are modelled by the inductive `Json`.
  Object keys are strings (Python dicts produced by json decoding have
  unique string keys; association lists here are read with first-match
  lookup, which agrees with dict lookup under key uniqueness).
* Python `None` and an absent key both surface as `None` through `.get`,
  and the parsing code treats them identically at every use site, so an
  absent key is modelled as `Json.null` where the code uses `.get(k)`
  without a default.
* Numbers are modelled exactly as rationals.  Python floats additionally
  have infinities and NaN, which `float(str)` can produce; these are the
  `PyFloat.inf` and `PyFloat.nan` constructors.  No claim depends on
  binary rounding, only on parse success/failure and value passthrough.
* The code stores `datetime.fromtimestamp(raw_time/1000, tz=UTC).isoformat()`
  as the series timestamp and sorts series by that ISO string.  For all
  representable instants the map from raw epoch milliseconds to that ISO
  string is monotone (fixed-width date/time fields; a fractional-seconds
  suffix starts with a character that sorts above the timezone sign), so
  timestamps are modelled by the raw epoch-millisecond number itself and
  the sort compares those numbers.
* Values used as Python dict keys are hashed; by the time a value is used
  as a key the code has established it is truthy, and lists/dicts raise
  TypeError (unhashable).  The remaining hashable key values (numbers,
  booleans with `True == 1`, strings) are modelled by `PyKey`.
* Exceptions raised while parsing (AttributeError from `.get` on a
  non-dict, TypeError from arithmetic or iteration on a wrongly typed
  value, TypeError from an unhashable dict key) are modelled by
  `Except.error`; they propagate out of `_parse_projection_response`
  (the function re-raises every exception after logging).
-/

namespace Havvarsel

/-- JSON values as decoded by the transport layer. -/
inductive Json where
  | null : Json
  | bool (b : Bool) : Json
  | num (q : Rat) : Json
  | str (s : String) : Json
  | arr (xs : List Json) : Json
  | obj (kvs : List (String × Json)) : Json
  deriving Repr

/-- Python truthiness of a decoded JSON value (`if not x`, `x or y`). -/
def Json.truthy : Json → Bool
  | .null => false
  | .bool b => b
  | .num q => q != 0
  | .str s => s != ""
  | .arr xs => !xs.isEmpty
  | .obj kvs => !kvs.isEmpty

/-- First-match lookup in a decoded JSON object (Python dict lookup; keys
are unique in a decoded dict, so first-match is exact). -/
def objLookup (kvs : List (String × Json)) (k : String) : Option Json :=
  match kvs with
  | [] => Option.none
  | (k', v) :: rest => if k' = k then some v else objLookup rest k

/-- Python `d.get(k, default)` on a value already known to be a dict. -/
def objGetD (kvs : List (String × Json)) (k : String) (d : Json) : Json :=
  (objLookup kvs k).getD d

/-- Total variant of `.get` used in specification-side data extraction on
values the parser has already established to be dicts; returns the
default on a non-dict. -/
def jGetD (j : Json) (k : String) (d : Json) : Json :=
  match j with
  | .obj kvs => objGetD kvs k d
  | _ => d

/-- Exceptions that escape the parsing code (the code logs and re-raises
every exception, so callers observe them as parse failures). -/
inductive PErr where
  | typeError : PErr
  | attrError : PErr
  deriving DecidableEq, Repr

/-- Python `x or y` (returns the first operand when truthy). -/
def pythonOr (a b : Json) : Json :=
  if a.truthy then a else b

/-- Python iteration as used by the parser: iterating a list yields its
elements; iterating an empty string or empty dict yields nothing;
iterating a non-empty string or dict yields strings on which the loop
body's `.get` raises AttributeError; iterating None, a bool, or a number
raises TypeError.  (Where the code also calls `len` first, the failing
cases coincide.) -/
def pyIter : Json → Except PErr (List Json)
  | .arr xs => .ok xs
  | .str s => if s = "" then .ok [] else .error .attrError
  | .obj kvs => if kvs.isEmpty then .ok [] else .error .attrError
  | _ => .error .typeError

/-- Numeric coercion as used by `raw_time / 1000`: ints, floats and bools
are numbers; anything else raises TypeError. -/
def pyNum : Json → Except PErr Rat
  | .num q => .ok q
  | .bool b => .ok (if b then 1 else 0)
  | _ => .error .typeError

/-- Hashable Python dict keys arising from decoded JSON values: numbers
and strings (`True == 1` in Python, so booleans collapse into numbers). -/
inductive PyKey where
  | num (q : Rat) : PyKey
  | str (s : String) : PyKey
  deriving DecidableEq, Repr

/-- Using a decoded JSON value as a Python dict key: lists and dicts are
unhashable (TypeError); bools are normalised to numbers since `True == 1`
and `hash True = hash 1`. -/
def pyHashKey : Json → Except PErr PyKey
  | .bool b => .ok (.num (if b then 1 else 0))
  | .num q => .ok (.num q)
  | .str s => .ok (.str s)
  | _ => .error .typeError

/-- Python float values: finite (modelled exactly as a rational), signed
infinity, or NaN. -/
inductive PyFloat where
  | finite (q : Rat) : PyFloat
  | inf (neg : Bool) : PyFloat
  | nan : PyFloat
  deriving DecidableEq, Repr

/-- Checks that every underscore in a numeric literal sits directly
between two digits (CPython's rule for float literals); `prev` is the
character just before the current position. -/
def usOk (prev : Option Char) : List Char → Bool
  | [] => true
  | c :: cs =>
      if c = '_' then
        (match prev with
          | some p => p.isDigit
          | Option.none => false) &&
        (match cs with
          | d :: _ => d.isDigit
          | [] => false) &&
        usOk (some c) cs
      else
        usOk (some c) cs

/-- Consumes leading decimal digits, returning their value, their count
and the rest of the input. -/
def takeDigits (val cnt : Nat) : List Char → Nat × Nat × List Char
  | [] => (val, cnt, [])
  | c :: cs =>
      if c.isDigit then takeDigits (10 * val + (c.toNat - 48)) (cnt + 1) cs
      else (val, cnt, c :: cs)

/-- Parses the exponent suffix (already lowercased, underscores removed):
either nothing, or an `e`, an optional sign, and at least one digit,
consuming the entire rest of the input. -/
def parseExpPart (m : Nat) (fd : Nat) : List Char → Option Rat
  | [] => some ((m : Rat) / 10 ^ fd)
  | 'e' :: r =>
      let (sgn, r') :=
        match r with
        | '+' :: r' => (1, r')
        | '-' :: r' => (-1, r')
        | _ => ((1 : Int), r)
      let (ev, ec, r'') := takeDigits 0 0 r'
      if ec = 0 ∨ r'' ≠ [] then Option.none
      else some ((m : Rat) * 10 ^ (sgn * (ev : Int) - (fd : Int)))
  | _ => Option.none

/-- Parses a decimal literal (already lowercased, sign and underscores
removed): digits, an optional point with further digits, an optional
exponent; at least one digit must be present before the exponent. -/
def parseDecimal (cs : List Char) : Option Rat :=
  let (iv, ic, r1) := takeDigits 0 0 cs
  match r1 with
  | '.' :: r2 =>
      let (fv, fc, r3) := takeDigits 0 0 r2
      if ic = 0 ∧ fc = 0 then Option.none
      else parseExpPart (iv * 10 ^ fc + fv) fc r3
  | _ => if ic = 0 then Option.none else parseExpPart iv 0 r1

/-- Parses an unsigned float literal body: `inf`, `infinity`, `nan`
(already lowercased), or a decimal literal. -/
def parseUnsignedFloat (cs : List Char) : Option PyFloat :=
  if cs = "inf".data ∨ cs = "infinity".data then some (.inf false)
  else if cs = "nan".data then some .nan
  else (parseDecimal cs).map .finite

/-- Negates a Python float (for a leading minus sign). -/
def PyFloat.neg : PyFloat → PyFloat
  | .finite q => .finite (-q)
  | .inf b => .inf (!b)
  | .nan => .nan

/-- Python `float(s)` on a string: strips surrounding whitespace, checks
the underscore placement rule, then parses an optional sign followed by
`inf`/`infinity`/`nan` (case-insensitive) or a decimal literal.  Returns
`none` where CPython raises ValueError. -/
def pyFloatOfString (s : String) : Option PyFloat :=
  let cs := ((s.data.dropWhile Char.isWhitespace).reverse.dropWhile
      Char.isWhitespace).reverse
  if cs = [] then Option.none
  else if ¬ usOk Option.none cs then Option.none
  else
    let cs := (cs.filter (· ≠ '_')).map Char.toLower
    match cs with
    | '+' :: r => if r = [] then Option.none else parseUnsignedFloat r
    | '-' :: r => if r = [] then Option.none else (parseUnsignedFloat r).map PyFloat.neg
    | _ => parseUnsignedFloat cs

/-- The conversion `float(var_value) if var_value is not None else None`
wrapped in `try/except (ValueError, TypeError)`: `None` (and an absent
value) gives `none`; bools and numbers convert; strings are parsed;
lists and dicts raise TypeError which the code catches, giving `none`. -/
def pyFloatOfJson : Json → Option PyFloat
  | .null => Option.none
  | .bool b => some (.finite (if b then 1 else 0))
  | .num q => some (.finite q)
  | .str s => pyFloatOfString s
  | .arr _ => Option.none
  | .obj _ => Option.none

/-- Python objects that end up stored in a parsed series or in `current`:
`None`, a float produced by `float(...)`, or a decoded JSON value passed
through verbatim. -/
inductive PyObj where
  | none : PyObj
  | float (f : PyFloat) : PyObj
  | raw (j : Json) : PyObj
  deriving Repr

/-- A decoded JSON value stored without conversion (`projection.get("value")`):
JSON null decodes to Python `None`; everything else is kept as is. -/
def PyObj.ofJson : Json → PyObj
  | .null => .none
  | j => .raw j

/-- The value stored by the time-point-major branch: the float conversion
with parse failures collapsed to `None`. -/
def valueFloat (v : Json) : PyObj :=
  match pyFloatOfJson v with
  | some f => .float f
  | Option.none => .none

/-- Python `min(l, key=key)` on a list: a linear scan keeping the current
minimum and replacing it only on a strictly smaller key, hence returning
the first minimal element; `none` on an empty list (where Python would
raise, which every call site guards against). -/
def pyMinBy (key : α → Rat) : List α → Option α
  | [] => Option.none
  | a :: as => some (as.foldl (fun best x => if key x < key best then x else best) a)

end Havvarsel

namespace Havvarsel

/-- One entry of a parsed per-variable series: the sample instant (raw
epoch milliseconds, standing for the ISO string the code stores) and the
stored value. -/
structure SeriesEntry where
  timestamp : Rat
  value : PyObj
  deriving Repr

/-- One entry of the raw (timestamp, value) sample list handed to the
nearest-sample selection. -/
structure RawPoint where
  rawTime : Rat
  value : PyObj
  deriving Repr

/-- Comparison used by `series.sort(key=lambda x: x.get("timestamp", ""))`
(sorting ISO strings is sorting the underlying instants). -/
def seriesLe (a b : SeriesEntry) : Prop := a.timestamp ≤ b.timestamp

instance : DecidableRel seriesLe := fun a b =>
  inferInstanceAs (Decidable (a.timestamp ≤ b.timestamp))

instance : IsTotal SeriesEntry seriesLe := ⟨fun a b => le_total a.timestamp b.timestamp⟩

instance : IsTrans SeriesEntry seriesLe := ⟨fun _ _ _ => le_trans⟩

/-- The stable sort applied to every series (Python's list.sort is stable;
a stable sort by a total preorder is unique, so insertion sort computes
the same list). -/
def sortSeries (l : List SeriesEntry) : List SeriesEntry :=
  List.insertionSort seriesLe l

/-- The Nearest-Sample Resolver:
`min(raw_data, key=lambda x: abs(x.get("rawTime", 0) - now_ms))`. -/
def nearestPoint (points : List RawPoint) (now : Rat) : Option RawPoint :=
  pyMinBy (fun x => |x.rawTime - now|) points

/-- The parsed per-variable record (`metadata`, `series`, `current`). -/
structure VarInfo where
  metadata : Json
  series : List SeriesEntry
  current : PyObj
  deriving Repr

/-- The uniform parse result returned by `_parse_projection_response` and
`_parse_temperatureprojection_format`. -/
structure ProjectionResult where
  vars : List (PyKey × VarInfo)
  nearest_grid : Json
  nearest_grid_lon : Json
  nearest_grid_lat : Json
  longitude : Rat
  latitude : Rat
  deriving Repr

/-- The value of `data.get("closestGridPointWithData", {"lat": ..., "lon": ...})`. -/
def closestGrid (kvs : List (String × Json)) (lat lon : Rat) : Json :=
  objGetD kvs "closestGridPointWithData" (.obj [("lat", .num lat), ("lon", .num lon)])

/-- The expression `closest_grid.get(k) if closest_grid else default`:
a truthy non-dict raises AttributeError on `.get`. -/
def gridField (cg : Json) (k : String) (dflt : Rat) : Except PErr Json :=
  if cg.truthy then
    match cg with
    | .obj gkvs => .ok (objGetD gkvs k .null)
    | _ => .error .attrError
  else .ok (.num dflt)

/-- Assembles the shared result envelope of both parse branches. -/
def mkResult (kvs : List (String × Json)) (lat lon : Rat)
    (vars : List (PyKey × VarInfo)) : Except PErr ProjectionResult :=
  let cg := closestGrid kvs lat lon
  match gridField cg "lon" lon with
  | .ok glon =>
      match gridField cg "lat" lat with
      | .ok glat =>
          .ok { vars := vars, nearest_grid := cg, nearest_grid_lon := glon,
                nearest_grid_lat := glat, longitude := lon, latitude := lat }
      | .error e => .error e
  | .error e => .error e

/-- Accumulator for one variable in the time-point-major branch: the
record before `raw_data` is popped and the series sorted. -/
structure VarAcc where
  metadata : Json
  series : List SeriesEntry
  raw_data : List RawPoint
  deriving Repr

/-- The `variables` dict being built by the time-point-major branch. -/
abbrev VarMapB := List (PyKey × VarAcc)

/-- Initial record for a variable seen for the first time: metadata from
the externally fetched `variables_metadata` mapping (default empty list),
empty series and raw data, `current` None. -/
def initVarAcc (vm : List (String × Json)) (k : PyKey) : VarAcc :=
  { metadata :=
      match k with
      | .str s => (vm.lookup s).getD (.arr [])
      | _ => .arr []
  , series := []
  , raw_data := [] }

/-- Python dict update at a key: replace in place (keeping the insertion
position) when present, append when absent. -/
def updOrInsert (k : PyKey) (f : VarAcc → VarAcc) (dflt : VarAcc) :
    VarMapB → VarMapB
  | [] => [(k, f dflt)]
  | (k', a) :: rest =>
      if k' = k then (k', f a) :: rest else (k', a) :: updOrInsert k f dflt rest

/-- Appends one sample to a variable's series and raw data (the two
appends at the end of the inner loop of `_parse_projection_response`). -/
def appendSample (rawT : Rat) (v : Json) (a : VarAcc) : VarAcc :=
  { a with
    series := a.series ++ [{ timestamp := rawT, value := valueFloat v }]
    raw_data := a.raw_data ++ [{ rawTime := rawT, value := valueFloat v }] }

/-- Processes one element of a time point's nested `data` array. -/
def procItem (vm : List (String × Json)) (rawT : Rat) (vars : VarMapB)
    (item : Json) : Except PErr VarMapB :=
  match item with
  | .obj ikvs =>
      let var_key := objGetD ikvs "key" .null
      let var_value := objGetD ikvs "value" .null
      if var_key.truthy then
        match pyHashKey var_key with
        | .ok k => .ok (updOrInsert k (appendSample rawT var_value) (initVarAcc vm k) vars)
        | .error e => .error e
      else .ok vars
  | _ => .error .attrError

/-- The inner loop over a time point's nested `data` array. -/
def procItems (vm : List (String × Json)) (rawT : Rat) (vars : VarMapB) :
    List Json → Except PErr VarMapB
  | [] => .ok vars
  | item :: rest =>
      match procItem vm rawT vars item with
      | .ok vars' => procItems vm rawT vars' rest
      | .error e => .error e

/-- Processes one time point: extract `rawTime`, iterate the nested
`data` array. -/
def procTimePoint (vm : List (String × Json)) (vars : VarMapB) (tp : Json) :
    Except PErr VarMapB :=
  match tp with
  | .obj tkvs =>
      match pyNum (objGetD tkvs "rawTime" (.num 0)) with
      | .ok rawT =>
          match pyIter (objGetD tkvs "data" (.arr [])) with
          | .ok items => procItems vm rawT vars items
          | .error e => .error e
      | .error e => .error e
  | _ => .error .attrError

/-- The outer loop over the top-level `data` array of time points. -/
def procTimePoints (vm : List (String × Json)) (vars : VarMapB) :
    List Json → Except PErr VarMapB
  | [] => .ok vars
  | tp :: rest =>
      match procTimePoint vm vars tp with
      | .ok vars' => procTimePoints vm vars' rest
      | .error e => .error e

/-- The `current` value selection shared by both branches: the value of
the nearest sample when there are samples, Python None otherwise (the
code initialises `current` to None and only runs `min` on a non-empty
sample list). -/
def currentOf (raws : List RawPoint) (now : Rat) : PyObj :=
  match nearestPoint raws now with
  | some p => p.value
  | Option.none => .none

/-- Per-variable finalisation of the time-point-major branch: pop
`raw_data`, set `current` from the nearest sample when raw data is
non-empty, and sort the series. -/
def finalizeVar (now : Rat) (a : VarAcc) : VarInfo :=
  { metadata := a.metadata
  , series := sortSeries a.series
  , current := currentOf a.raw_data now }

/-- The time-point-major (default) branch of `_parse_projection_response`. -/
def parseDataFormat (vm : List (String × Json)) (now lat lon : Rat)
    (kvs : List (String × Json)) : Except PErr ProjectionResult :=
  match pyIter (objGetD kvs "data" (.arr [])) with
  | .ok tps =>
      match procTimePoints vm [] tps with
      | .ok vars => mkResult kvs lat lon (vars.map fun p => (p.1, finalizeVar now p.2))
      | .error e => .error e
  | .error e => .error e

/-- The name probe `var.get("variableName") or var.get("variable")`. -/
def varName (vkvs : List (String × Json)) : Json :=
  pythonOr (objGetD vkvs "variableName" .null) (objGetD vkvs "variable" .null)

/-- Processes one data point of the variables-array branch: the series
entry appended and the raw point later scanned by `min`; the stored value
is the decoded JSON value without conversion. -/
def procPoint (p : Json) : Except PErr (SeriesEntry × RawPoint) :=
  match p with
  | .obj pkvs =>
      match pyNum (objGetD pkvs "rawTime" (.num 0)) with
      | .ok rawT =>
          let v := PyObj.ofJson (objGetD pkvs "value" .null)
          .ok ({ timestamp := rawT, value := v }, { rawTime := rawT, value := v })
      | .error e => .error e
  | _ => .error .attrError

/-- The loop over one variable's data points. -/
def procPoints : List Json → Except PErr (List (SeriesEntry × RawPoint))
  | [] => .ok []
  | p :: ps =>
      match procPoint p with
      | .ok pr =>
          match procPoints ps with
          | .ok prs => .ok (pr :: prs)
          | .error e => .error e
      | .error e => .error e

/-- Python dict assignment `variables[name] = value`: replace in place
(keeping the insertion position) when present, append when absent. -/
def setOrReplace (k : PyKey) (vi : VarInfo) :
    List (PyKey × VarInfo) → List (PyKey × VarInfo)
  | [] => [(k, vi)]
  | (k', a) :: rest =>
      if k' = k then (k', vi) :: rest else (k', a) :: setOrReplace k vi rest

/-- Processes one element of the top-level `variables` array. -/
def procVariable (now : Rat) (vars : List (PyKey × VarInfo)) (var : Json) :
    Except PErr (List (PyKey × VarInfo)) :=
  match var with
  | .obj vkvs =>
      let name := varName vkvs
      if name.truthy then
        let metadata := objGetD vkvs "metadata" (.arr [])
        match pyIter (objGetD vkvs "data" (.arr [])) with
        | .ok pts =>
            match procPoints pts with
            | .ok prs =>
                let series := sortSeries (prs.map Prod.fst)
                let current : PyObj := currentOf (prs.map Prod.snd) now
                match pyHashKey name with
                | .ok k =>
                    .ok (setOrReplace k
                      { metadata := metadata, series := series, current := current } vars)
                | .error e => .error e
            | .error e => .error e
        | .error e => .error e
      else .ok vars
  | _ => .error .attrError

/-- The loop over the top-level `variables` array. -/
def procVariables (now : Rat) (vars : List (PyKey × VarInfo)) :
    List Json → Except PErr (List (PyKey × VarInfo))
  | [] => .ok vars
  | v :: vs =>
      match procVariable now vars v with
      | .ok vars' => procVariables now vars' vs
      | .error e => .error e

/-- The embedding of `_parse_temperatureprojection_format`. -/
def parseTemperatureprojectionFormat (now lat lon : Rat) (data : Json) :
    Except PErr ProjectionResult :=
  match data with
  | .obj kvs =>
      match pyIter (objGetD kvs "variables" (.arr [])) with
      | .ok vlist =>
          match procVariables now [] vlist with
          | .ok vars => mkResult kvs lat lon vars
          | .error e => .error e
      | .error e => .error e
  | _ => .error .attrError

/-- The embedding of `_parse_projection_response`: probe for a top-level
`variables` key holding a list, otherwise fall through to the
time-point-major parse of `data.get("data", [])`.  A non-dict top-level
value always raises before anything is returned. -/
def parseProjectionResponse (vm : List (String × Json)) (now lat lon : Rat)
    (data : Json) : Except PErr ProjectionResult :=
  match data with
  | .obj kvs =>
      match objLookup kvs "variables" with
      | some (.arr _) => parseTemperatureprojectionFormat now lat lon data
      | _ => parseDataFormat vm now lat lon kvs
  | _ => .error .typeError

/-- First-match lookup in the parsed variables mapping. -/
def lookupVar (vars : List (PyKey × VarInfo)) (k : PyKey) : Option VarInfo :=
  match vars with
  | [] => Option.none
  | (k', v) :: rest => if k' = k then some v else lookupVar rest k

/-- The legacy flat shape returned by `async_get_temperature_data`. -/
structure TempData where
  current_temperature : PyObj
  timestamp : Option Rat
  longitude : Rat
  latitude : Rat
  nearest_grid_lon : Json
  nearest_grid_lat : Json
  forecast : List (Rat × PyObj)
  deriving Repr

/-- Python `.get(k)` returning None on an absent key and raising
AttributeError on a non-dict. -/
def pyGetJ (j : Json) (k : String) : Except PErr Json :=
  match j with
  | .obj kvs => .ok (objGetD kvs k .null)
  | _ => .error .attrError

/-- The variable selected by the Compatibility Projector:
`variables.get("temperature") or next(iter(variables.values()), None)`
(a parsed per-variable record is a non-empty dict, hence always truthy). -/
def selectTemp (r : ProjectionResult) : Option VarInfo :=
  match lookupVar r.vars (.str "temperature") with
  | some vi => some vi
  | Option.none => r.vars.head?.map Prod.snd

/-- The embedding of the projection part of `async_get_temperature_data`
(the fetch already done, applied to its parsed result). -/
def getTemperatureData (r : ProjectionResult) : Except PErr TempData :=
  let temp := selectTemp r
  let current_temp : PyObj :=
    match temp with
    | some vi => vi.current
    | Option.none => .none
  let forecast : List (Rat × PyObj) :=
    match temp with
    | some vi => vi.series.map fun e => (e.timestamp, e.value)
    | Option.none => []
  let timestamp : Option Rat :=
    match temp with
    | some vi =>
        match vi.series with
        | [] => Option.none
        | e :: _ => some e.timestamp
    | Option.none => Option.none
  match pyGetJ r.nearest_grid "lon" with
  | .ok glon =>
      match pyGetJ r.nearest_grid "lat" with
      | .ok glat =>
          .ok { current_temperature := current_temp, timestamp := timestamp,
                longitude := r.longitude, latitude := r.latitude,
                nearest_grid_lon := glon, nearest_grid_lat := glat,
                forecast := forecast }
      | .error e => .error e
  | .error e => .error e

/-- Python equality of a decoded JSON value with a string literal. -/
def isStrVal (j : Json) (s : String) : Bool :=
  match j with
  | .str t => t == s
  | _ => false

/-- Scans a metadata array for the first dict with key `long_name` and
returns its value (breaking at the first match), with the given default. -/
def findLongName (dflt : Json) : List Json → Json
  | [] => dflt
  | m :: ms =>
      match m with
      | .obj mkvs =>
          if isStrVal (objGetD mkvs "key" .null) "long_name" then
            objGetD mkvs "value" dflt
          else findLongName dflt ms
      | _ => findLongName dflt ms

/-- Extracts `long_name` from an item's metadata, falling back to the
variable's own name; a non-list metadata value is ignored. -/
def longNameOf (vn : Json) (metadata : Json) : Json :=
  match metadata with
  | .arr metas => findLongName vn metas
  | _ => vn

/-- Python dict assignment for the catalog dictionary. -/
def dictSet (k : PyKey) (v : Json) : List (PyKey × Json) → List (PyKey × Json)
  | [] => [(k, v)]
  | (k', v') :: rest =>
      if k' = k then (k', v) :: rest else (k', v') :: dictSet k v rest

/-- The row loop of `async_get_available_variables`: non-dict items are
skipped, falsy names and the `time` sentinel are skipped, an unhashable
truthy name raises (caught by the outer handler). -/
def buildVariablesDict (acc : List (PyKey × Json)) :
    List Json → Except PErr (List (PyKey × Json))
  | [] => .ok acc
  | item :: rest =>
      match item with
      | .obj ikvs =>
          let vn := objGetD ikvs "variableName" .null
          if vn.truthy && !(isStrVal vn "time") then
            match pyHashKey vn with
            | .ok k =>
                buildVariablesDict
                  (dictSet k (longNameOf vn (objGetD ikvs "metadata" (.arr []))) acc) rest
            | .error e => .error e
          else buildVariablesDict acc rest
      | _ => buildVariablesDict acc rest

/-- The documented safe fallback of `async_get_available_variables`. -/
def fallbackVariables : List (PyKey × Json) :=
  [(.str "temperature", .str "Sea water potential temperature")]

/-- The embedding of `async_get_available_variables`.  The transport call
either fails (`Except.error`) or yields a decoded body; every structural
surprise and every exception degrades to the fixed fallback mapping, so
the function is total and never fails. -/
def asyncGetAvailableVariables (resp : Except Unit Json) : List (PyKey × Json) :=
  match resp with
  | .error _ => fallbackVariables
  | .ok data =>
      match data with
      | .obj kvs =>
          match objLookup kvs "row" with
          | some (.arr items) =>
              match buildVariablesDict [] items with
              | .ok d => if d.isEmpty then fallbackVariables else d
              | .error _ => fallbackVariables
          | _ => fallbackVariables
      | _ => fallbackVariables

/-- One entry of the external entity registry as inspected by
`_get_enabled_variables` in coordinator.py. -/
structure RegistryEntry where
  config_entry_id : String
  domain : String
  disabled : Bool
  unique_id : String
  deriving Repr, DecidableEq

/-- Extracts the variable name from a unique id of the form
`slug_entryid_varname` (underscores inside the variable name are kept). -/
def varFromUniqueId (uid : String) : Option String :=
  let parts := uid.splitOn "_"
  if 3 ≤ parts.length then some (String.intercalate "_" (parts.drop 2))
  else Option.none

/-- The registry scan of `_get_enabled_variables`: the variable names of
this entry's enabled sensor entities, before the temperature fallback. -/
def derivedVars (entryId : String) (entities : List RegistryEntry) :
    List String :=
  entities.filterMap fun e =>
    if e.config_entry_id = entryId ∧ e.domain = "sensor" ∧ e.disabled = false then
      varFromUniqueId e.unique_id
    else Option.none

/-- The embedding of `_get_enabled_variables`: collect the variable names
of this entry's enabled sensor entities, then append `temperature` when
the list is empty or lacks it. -/
def getEnabledVariables (entryId : String) (entities : List RegistryEntry) :
    List String :=
  let enabled := derivedVars entryId entities
  if enabled.isEmpty || !enabled.contains "temperature" then
    enabled ++ ["temperature"]
  else enabled

end Havvarsel

namespace Havvarsel

/-- The per-variable guarantee of nearest-sample resolution: an empty
series leaves `current` absent, and a non-empty series makes `current`
one of the values stored in that series. -/
def CurrentSpec (vi : VarInfo) : Prop :=
  (vi.series = [] → vi.current = PyObj.none) ∧
  (vi.series ≠ [] → vi.current ∈ vi.series.map SeriesEntry.value)

/-- Whether a stored value is a float or Python None (the value type the
uniform model promises for series entries and `current`). -/
def isFloatOrNoneB : PyObj → Bool
  | .none => true
  | .float _ => true
  | .raw _ => false

/-- The name probe applied to an arbitrary element of the `variables`
array (null when the element is not an object). -/
def varNameOf (v : Json) : Json :=
  match v with
  | .obj vkvs => varName vkvs
  | _ => .null

/-- A well-shaped data point of the variables-array format: an object
whose `rawTime` (defaulting to 0) is numeric. -/
def PointShape (p : Json) : Prop :=
  ∃ pkvs q, p = .obj pkvs ∧ pyNum (objGetD pkvs "rawTime" (.num 0)) = .ok q

/-- A well-shaped element of the `variables` array: an object carrying a
truthy string variable name and an iterable `data` member of `K`
well-shaped points. -/
def VarShape (K : Nat) (v : Json) : Prop :=
  ∃ vkvs s, v = .obj vkvs ∧ varName vkvs = .str s ∧ s ≠ "" ∧
    ∃ pts, pyIter (objGetD vkvs "data" (.arr [])) = .ok pts ∧ pts.length = K ∧
      ∀ p ∈ pts, PointShape p

/-- A well-shaped element of a time point's nested `data` array: an
object whose `key`, when truthy, is hashable.  The value is arbitrary. -/
def ItemShape (item : Json) : Prop :=
  ∃ ikvs, item = .obj ikvs ∧
    ((objGetD ikvs "key" .null).truthy = true →
      ∃ k, pyHashKey (objGetD ikvs "key" .null) = .ok k)

/-- A well-shaped time point of the time-point-major format: an object
with numeric `rawTime` (defaulting to 0) and an iterable nested `data`
member of well-shaped items. -/
def TimePointShape (tp : Json) : Prop :=
  ∃ tkvs, tp = .obj tkvs ∧
    (∃ q, pyNum (objGetD tkvs "rawTime" (.num 0)) = .ok q) ∧
    ∃ items, pyIter (objGetD tkvs "data" (.arr [])) = .ok items ∧
      ∀ item ∈ items, ItemShape item

/-- The `closestGridPointWithData` value (or its default) is falsy or an
object, so the envelope construction cannot raise. -/
def GridOk (kvs : List (String × Json)) (lat lon : Rat) : Prop :=
  (closestGrid kvs lat lon).truthy = false ∨
    ∃ gkvs, closestGrid kvs lat lon = .obj gkvs

/-- The raw time of a time point as read by the parser (0 stands in for
the unreachable error case). -/
def tpRawTime (tp : Json) : Rat :=
  match pyNum (jGetD tp "rawTime" (.num 0)) with
  | .ok q => q
  | .error _ => 0

/-- The nested items of a time point as iterated by the parser. -/
def tpItems (tp : Json) : List Json :=
  match pyIter (jGetD tp "data" (.arr [])) with
  | .ok xs => xs
  | .error _ => []

/-- The dict key under which an item's sample is recorded: its truthy
hashable `key`, when present (falsy keys are skipped). -/
def itemKeyOf (item : Json) : Option PyKey :=
  if (jGetD item "key" .null).truthy then
    match pyHashKey (jGetD item "key" .null) with
    | .ok k => some k
    | .error _ => Option.none
  else Option.none

/-- The decoded value carried by an item. -/
def itemValueOf (item : Json) : Json := jGetD item "value" .null

/-- The (timestamp, value) samples of one time point keyed to `k`. -/
def keyedSamplesTP (tp : Json) (k : PyKey) : List (Rat × Json) :=
  (tpItems tp).filterMap fun item =>
    if itemKeyOf item = some k then some (tpRawTime tp, itemValueOf item)
    else Option.none

/-- All (timestamp, value) samples keyed to `k` across the time points,
in encounter order. -/
def keyedSamples (k : PyKey) : List Json → List (Rat × Json)
  | [] => []
  | tp :: rest => keyedSamplesTP tp k ++ keyedSamples k rest

/-- First-match lookup in the accumulator map of the time-point-major
branch. -/
def lookupAcc (vars : VarMapB) (k : PyKey) : Option VarAcc :=
  match vars with
  | [] => Option.none
  | (k', a) :: rest => if k' = k then some a else lookupAcc rest k

/-- The series accumulated so far for key `k` (empty when unseen). -/
def seriesOf (vars : VarMapB) (k : PyKey) : List SeriesEntry :=
  match lookupAcc vars k with
  | some a => a.series
  | Option.none => []

/-- The raw data accumulated so far for key `k` (empty when unseen). -/
def rawOf (vars : VarMapB) (k : PyKey) : List RawPoint :=
  match lookupAcc vars k with
  | some a => a.raw_data
  | Option.none => []

/-- A concrete time-point-major payload: two temperature samples at raw
times 1000 and 2000 (the worked example of the specification). -/
def tpPayload : Json :=
  .obj [("data", .arr [
    .obj [("rawTime", .num 1000), ("data", .arr [
      .obj [("key", .str "temperature"), ("value", .str "10.5")]])],
    .obj [("rawTime", .num 2000), ("data", .arr [
      .obj [("key", .str "temperature"), ("value", .str "11.0")]])]])]

/-- The parse result of `tpPayload` at reference instant 1900, longitude
5, latitude 60. -/
def tpResult : ProjectionResult :=
  { vars := [(.str "temperature",
      { metadata := .arr []
      , series := [⟨1000, .float (.finite (21/2))⟩, ⟨2000, .float (.finite 11)⟩]
      , current := .float (.finite 11) })]
  , nearest_grid := .obj [("lat", .num 60), ("lon", .num 5)]
  , nearest_grid_lon := .num 5
  , nearest_grid_lat := .num 60
  , longitude := 5
  , latitude := 60 }

/-- The legacy flat projection of `tpResult`. -/
def tpTemp : TempData :=
  { current_temperature := .float (.finite 11)
  , timestamp := some 1000
  , longitude := 5
  , latitude := 60
  , nearest_grid_lon := .num 5
  , nearest_grid_lat := .num 60
  , forecast := [(1000, .float (.finite (21/2))), (2000, .float (.finite 11))] }

/-- A concrete variables-array payload whose single sample carries a
string value. -/
def vaPayload : Json :=
  .obj [("variables", .arr [
    .obj [("variableName", .str "temperature"), ("metadata", .arr []),
          ("data", .arr [.obj [("rawTime", .num 2000), ("value", .str "11.5")]])]])]

/-- The parse result of `vaPayload` at reference instant 1900, longitude
5, latitude 60: the string value survives unconverted. -/
def vaResult : ProjectionResult :=
  { vars := [(.str "temperature",
      { metadata := .arr []
      , series := [⟨2000, .raw (.str "11.5")⟩]
      , current := .raw (.str "11.5") })]
  , nearest_grid := .obj [("lat", .num 60), ("lon", .num 5)]
  , nearest_grid_lon := .num 5
  , nearest_grid_lat := .num 60
  , longitude := 5
  , latitude := 60 }

/-- A variables-array payload with two elements carrying the same
variable name, one data point each. -/
def dupPayload : Json :=
  .obj [("variables", .arr [
    .obj [("variableName", .str "temperature"),
          ("data", .arr [.obj [("rawTime", .num 1000), ("value", .num 1)]])],
    .obj [("variableName", .str "temperature"),
          ("data", .arr [.obj [("rawTime", .num 2000), ("value", .num 2)]])]])]

/-- Structural surprises of the catalog call, as the code probes for
them: a failed transport call, a non-dict body, a missing or non-list
`row`, a row scan that raises, or a row scan yielding no variables. -/
def catalogSurprise : Except Unit Json → Prop
  | .error _ => True
  | .ok data =>
      match data with
      | .obj kvs =>
          match objLookup kvs "row" with
          | some (.arr items) =>
              buildVariablesDict [] items = .ok [] ∨
                ∃ e, buildVariablesDict [] items = .error e
          | _ => True
      | _ => True

end Havvarsel

namespace Havvarsel

/-- Specification of the linear scan performed by Python `min` with a key
function: the fold returns the first element of `a :: l` attaining the
minimal key (everything to its left has a strictly larger key). -/
theorem foldl_min_split (key : α → Rat) :
    ∀ (l : List α) (a : α),
      ∃ l₁ r l₂, a :: l = l₁ ++ r :: l₂ ∧
        l.foldl (fun best x => if key x < key best then x else best) a = r ∧
        (∀ b ∈ a :: l, key r ≤ key b) ∧ (∀ b ∈ l₁, key r < key b)
  | [], a => ⟨[], a, [], rfl, rfl, by simp, by simp⟩
  | x :: xs, a => by
    rcases lt_or_le (key x) (key a) with hlt | hle
    · obtain ⟨l₁, r, l₂, hsplit, hfold, hmin, hstrict⟩ := foldl_min_split key xs x
      refine ⟨a :: l₁, r, l₂, ?_, ?_, ?_, ?_⟩
      · simpa using congrArg (List.cons a) hsplit
      · simpa [if_pos hlt] using hfold
      · intro b hb
        rcases List.mem_cons.mp hb with rfl | hb
        · exact le_of_lt (lt_of_le_of_lt (hmin x (by simp)) hlt)
        · exact hmin b hb
      · intro b hb
        rcases List.mem_cons.mp hb with rfl | hb
        · exact lt_of_le_of_lt (hmin x (by simp)) hlt
        · exact hstrict b hb
    · obtain ⟨l₁, r, l₂, hsplit, hfold, hmin, hstrict⟩ := foldl_min_split key xs a
      cases l₁ with
      | nil =>
        obtain ⟨rfl, rfl⟩ : a = r ∧ xs = l₂ := by
          simpa using hsplit
        refine ⟨[], a, x :: xs, rfl, ?_, ?_, by simp⟩
        · simpa [if_neg (not_lt.mpr hle)] using hfold
        · intro b hb
          rcases List.mem_cons.mp hb with rfl | hb
          · exact le_refl _
          · rcases List.mem_cons.mp hb with rfl | hb
            · exact hle
            · exact hmin b (List.mem_cons_of_mem _ hb)
      | cons c t =>
        obtain ⟨hac, hxs⟩ : a = c ∧ xs = t ++ r :: l₂ := by
          simpa using hsplit
        have hra : key r < key a := by
          rw [hac]; exact hstrict c (by simp)
        refine ⟨a :: x :: t, r, l₂, ?_, ?_, ?_, ?_⟩
        · simp [hxs]
        · simpa [if_neg (not_lt.mpr hle)] using hfold
        · intro b hb
          rcases List.mem_cons.mp hb with rfl | hb
          · exact hmin _ (List.mem_cons_self _ _)
          · rcases List.mem_cons.mp hb with rfl | hb
            · exact le_of_lt (lt_of_lt_of_le hra hle)
            · exact hmin b (List.mem_cons_of_mem _ hb)
        · intro b hb
          rcases List.mem_cons.mp hb with rfl | hb
          · exact hra
          · rcases List.mem_cons.mp hb with rfl | hb
            · exact lt_of_lt_of_le hra hle
            · exact hstrict b (List.mem_cons_of_mem _ hb)

/-- Python `min(l, key=key)` on a non-empty list returns the first element
attaining the minimal key. -/
theorem pyMinBy_split (key : α → Rat) (l : List α) (h : l ≠ []) :
    ∃ l₁ r l₂, l = l₁ ++ r :: l₂ ∧ pyMinBy key l = some r ∧
      (∀ b ∈ l, key r ≤ key b) ∧ (∀ b ∈ l₁, key r < key b) := by
  cases l with
  | nil => exact absurd rfl h
  | cons a as =>
      obtain ⟨l₁, r, l₂, hs, hf, hmin, hstrict⟩ := foldl_min_split key as a
      exact ⟨l₁, r, l₂, hs, by simp [pyMinBy, hf], hmin, hstrict⟩

/-- C1: For every non-empty sequence of (raw-timestamp, value) samples and
every reference instant, the nearest-sample resolver (the `min` call that
populates `current` in both parse branches) returns the sample whose
timestamp has minimum absolute difference from the reference; when
several samples tie for that minimum distance it returns the first such
sample in input (encounter) order: every sample preceding the returned
one lies strictly farther from the reference, so the value selected is
the first minimal sample's value. -/
theorem claim_C1_nearest_first_min (points : List RawPoint) (now : Rat)
    (h : points ≠ []) :
    ∃ pre p post, points = pre ++ p :: post ∧
      nearestPoint points now = some p ∧
      (∀ q ∈ points, |p.rawTime - now| ≤ |q.rawTime - now|) ∧
      (∀ q ∈ pre, |p.rawTime - now| < |q.rawTime - now|) := by
  simpa [nearestPoint] using
    pyMinBy_split (fun x : RawPoint => |x.rawTime - now|) points h

/-- Witness for C1: the resolver applied to two concrete samples. -/
theorem claim_C1_witness :
    ([⟨1000, PyObj.none⟩, ⟨2000, PyObj.none⟩] : List RawPoint) ≠ [] ∧
    (∃ pre p post,
      ([⟨1000, PyObj.none⟩, ⟨2000, PyObj.none⟩] : List RawPoint) = pre ++ p :: post ∧
      nearestPoint [⟨1000, PyObj.none⟩, ⟨2000, PyObj.none⟩] 1900 = some p ∧
      (∀ q ∈ ([⟨1000, PyObj.none⟩, ⟨2000, PyObj.none⟩] : List RawPoint),
        |p.rawTime - 1900| ≤ |q.rawTime - 1900|) ∧
      (∀ q ∈ pre, |p.rawTime - 1900| < |q.rawTime - 1900|)) :=
  ⟨List.cons_ne_nil _ _,
   claim_C1_nearest_first_min [⟨1000, PyObj.none⟩, ⟨2000, PyObj.none⟩] 1900
     (List.cons_ne_nil _ _)⟩

/-- C2: shape detection is exclusive and ordered: a top-level object whose
`variables` key holds an array is parsed by the variables-array branch
(also when a `data` array is present); the time-point-major branch runs
exactly when the `variables`-array probe fails. -/
theorem claim_C2_dispatch (vm : List (String × Json)) (now lat lon : Rat)
    (kvs : List (String × Json)) :
    (∀ xs, objLookup kvs "variables" = some (.arr xs) →
      parseProjectionResponse vm now lat lon (.obj kvs) =
        parseTemperatureprojectionFormat now lat lon (.obj kvs)) ∧
    ((∀ xs, objLookup kvs "variables" ≠ some (.arr xs)) →
      parseProjectionResponse vm now lat lon (.obj kvs) =
        parseDataFormat vm now lat lon kvs) := by
  constructor
  · intro xs hx
    simp [parseProjectionResponse, hx]
  · intro hx
    cases hl : objLookup kvs "variables" with
    | none => simp [parseProjectionResponse, hl]
    | some j =>
        cases j with
        | arr xs => exact absurd hl (hx xs)
        | null => simp [parseProjectionResponse, hl]
        | bool b => simp [parseProjectionResponse, hl]
        | num q => simp [parseProjectionResponse, hl]
        | str s => simp [parseProjectionResponse, hl]
        | obj o => simp [parseProjectionResponse, hl]

/-- Witness for C2: a payload carrying both a `variables` array and a
`data` array goes through the variables-array branch. -/
theorem claim_C2_witness :
    objLookup [("variables", Json.arr []), ("data", Json.arr [Json.num 1])]
      "variables" = some (Json.arr []) ∧
    parseProjectionResponse [] 0 0 0
        (Json.obj [("variables", Json.arr []), ("data", Json.arr [Json.num 1])]) =
      parseTemperatureprojectionFormat 0 0 0
        (Json.obj [("variables", Json.arr []), ("data", Json.arr [Json.num 1])]) :=
  ⟨rfl, (claim_C2_dispatch [] 0 0 0 _).1 [] rfl⟩

/-- C10: the variable list handed to the projection fetch on a refresh
cycle always contains `temperature` and is never empty; whenever the
registry-derived list is empty or lacks `temperature`, `temperature` is
appended to it. -/
theorem claim_C10_temperature_fallback (entryId : String)
    (entities : List RegistryEntry) :
    "temperature" ∈ getEnabledVariables entryId entities ∧
    getEnabledVariables entryId entities ≠ [] ∧
    (("temperature" ∉ derivedVars entryId entities ∨
        derivedVars entryId entities = []) →
      getEnabledVariables entryId entities =
        derivedVars entryId entities ++ ["temperature"]) := by
  unfold getEnabledVariables
  by_cases hc : (derivedVars entryId entities).isEmpty
      || !(derivedVars entryId entities).contains "temperature"
  · rw [if_pos hc]
    refine ⟨List.mem_append_right _ (by simp), by simp, fun _ => rfl⟩
  · rw [if_neg hc]
    simp only [Bool.or_eq_true, Bool.not_eq_true', not_or, Bool.not_eq_false] at hc
    obtain ⟨hne, hmem⟩ := hc
    have hmem' : "temperature" ∈ derivedVars entryId entities := by
      simpa using hmem
    refine ⟨hmem', ?_, ?_⟩
    · intro h0
      rw [h0] at hmem'
      exact absurd hmem' (List.not_mem_nil _)
    · intro h
      rcases h with h | h
      · exact absurd hmem' h
      · rw [h] at hmem'
        exact absurd hmem' (List.not_mem_nil _)

/-- Witness for C10: with an empty registry the fetched list is exactly
the appended temperature fallback. -/
theorem claim_C10_witness :
    "temperature" ∈ getEnabledVariables "entry" [] ∧
    getEnabledVariables "entry" [] = derivedVars "entry" [] ++ ["temperature"] :=
  ⟨(claim_C10_temperature_fallback "entry" []).1,
   (claim_C10_temperature_fallback "entry" []).2.2 (Or.inr rfl)⟩

end Havvarsel

namespace Havvarsel

/-- When the `variables`-array probe fails, the dispatcher falls through
to the time-point-major branch. -/
theorem parse_obj_not_variables (vm : List (String × Json)) (now lat lon : Rat)
    (kvs : List (String × Json))
    (hv : ∀ xs, objLookup kvs "variables" ≠ some (.arr xs)) :
    parseProjectionResponse vm now lat lon (.obj kvs) =
      parseDataFormat vm now lat lon kvs := by
  cases hl : objLookup kvs "variables" with
  | none => simp [parseProjectionResponse, hl]
  | some j =>
      cases j with
      | arr xs => exact absurd hl (hv xs)
      | null => simp [parseProjectionResponse, hl]
      | bool b => simp [parseProjectionResponse, hl]
      | num q => simp [parseProjectionResponse, hl]
      | str s => simp [parseProjectionResponse, hl]
      | obj o => simp [parseProjectionResponse, hl]

/-- C6 counterexample: the empty top-level object (no `variables` array,
no `data` array anywhere) parses without any error into a normal result
with an empty variables mapping, instead of signalling a ParseError. -/
theorem claim_C6_counterexample :
    parseProjectionResponse [] 0 0 0 (.obj []) =
      .ok { vars := [], nearest_grid := .obj [("lat", .num 0), ("lon", .num 0)],
            nearest_grid_lon := .num 0, nearest_grid_lat := .num 0,
            longitude := 0, latitude := 0 } := rfl

/-- C6 amended: a top-level object carrying neither a `variables` array
nor a `data` key does not signal a ParseError for the missing arrays: the
normalizer proceeds with an empty time-point list and returns the normal
envelope with an empty variables mapping. -/
theorem claim_C6_missing_arrays (vm : List (String × Json)) (now lat lon : Rat)
    (kvs : List (String × Json))
    (hv : ∀ xs, objLookup kvs "variables" ≠ some (.arr xs))
    (hd : objLookup kvs "data" = Option.none) :
    parseProjectionResponse vm now lat lon (.obj kvs) = mkResult kvs lat lon [] := by
  rw [parse_obj_not_variables vm now lat lon kvs hv]
  simp [parseDataFormat, objGetD, hd, pyIter, procTimePoints]

/-- Witness for the amended C6 at the empty object. -/
theorem claim_C6_witness :
    parseProjectionResponse [] 0 0 0 (.obj []) = mkResult [] 0 0 [] :=
  claim_C6_missing_arrays [] 0 0 0 []
    (fun xs h => by simp [objLookup] at h) rfl

/-- C8: `async_get_available_variables` is total (the embedding returns a
value for every transport outcome, modelling that the code never raises),
and on every call failure or structural surprise it returns exactly the
single-entry mapping from `temperature` to its fixed description. -/
theorem claim_C8_catalog_fallback (resp : Except Unit Json)
    (h : catalogSurprise resp) :
    asyncGetAvailableVariables resp = fallbackVariables := by
  cases resp with
  | error e => rfl
  | ok data =>
      cases data with
      | obj kvs =>
          unfold asyncGetAvailableVariables
          cases hl : objLookup kvs "row" with
          | none => simp [hl]
          | some j =>
              cases j with
              | arr items =>
                  have h2 : (match objLookup kvs "row" with
                      | some (.arr items) =>
                          buildVariablesDict [] items = .ok [] ∨
                            ∃ e, buildVariablesDict [] items = .error e
                      | _ => True) := h
                  rw [hl] at h2
                  have h' : buildVariablesDict [] items = .ok [] ∨
                      ∃ e, buildVariablesDict [] items = .error e := h2
                  rcases h' with h' | ⟨e, he⟩
                  · simp [hl, h']
                  · simp [hl, he]
              | null => simp [hl]
              | bool b => simp [hl]
              | num q => simp [hl]
              | str s => simp [hl]
              | obj o => simp [hl]
      | null => rfl
      | bool b => rfl
      | num q => rfl
      | str s => rfl
      | arr xs => rfl

/-- Witness for C8: a failed call, a malformed (non-dict) body and an
empty row list all return exactly the fallback mapping. -/
theorem claim_C8_witness :
    asyncGetAvailableVariables (.error ()) = fallbackVariables ∧
    asyncGetAvailableVariables (.ok (.str "oops")) = fallbackVariables ∧
    asyncGetAvailableVariables (.ok (.obj [("row", .arr [])])) = fallbackVariables :=
  ⟨claim_C8_catalog_fallback (.error ()) trivial,
   claim_C8_catalog_fallback (.ok (.str "oops")) trivial,
   claim_C8_catalog_fallback (.ok (.obj [("row", .arr [])])) (Or.inl rfl)⟩

end Havvarsel

namespace Havvarsel

section RatEval

attribute [local semireducible] Rat.mul Rat.sub Rat.inv Rat.add Rat.ofScientific

/-- C9: the Compatibility Projector reports as `timestamp` the timestamp
of the first entry of the (sorted) series of the selected variable (none
when the series is empty), not the timestamp of the nearest-to-now sample
used for `current_temperature`; on a concrete payload the two reference
different instants: the reported timestamp is 1000 while the sample
selected for the current value sits at 2000. -/
theorem claim_C9_timestamp_first_entry :
    (∀ (r : ProjectionResult) (vi : VarInfo) (td : TempData),
        selectTemp r = some vi → getTemperatureData r = .ok td →
        td.timestamp = vi.series.head?.map SeriesEntry.timestamp) ∧
    (parseProjectionResponse [] 1900 60 5 tpPayload = .ok tpResult ∧
     getTemperatureData tpResult = .ok tpTemp ∧
     tpTemp.timestamp = some 1000 ∧
     tpTemp.current_temperature = .float (.finite 11) ∧
     nearestPoint [⟨1000, .float (.finite (21/2))⟩, ⟨2000, .float (.finite 11)⟩] 1900 =
       some ⟨2000, .float (.finite 11)⟩ ∧
     (1000 : Rat) ≠ 2000) := by
  constructor
  · intro r vi td hsel hok
    simp only [getTemperatureData, hsel] at hok
    cases hlon : pyGetJ r.nearest_grid "lon" with
    | error e => rw [hlon] at hok; cases hok
    | ok glon =>
        cases hlat : pyGetJ r.nearest_grid "lat" with
        | error e => rw [hlon, hlat] at hok; cases hok
        | ok glat =>
            rw [hlon, hlat] at hok
            injection hok with hok
            subst hok
            cases hvi : vi.series with
            | nil => simp [hvi]
            | cons e es => simp [hvi]
  · exact ⟨rfl, rfl, rfl, rfl, rfl, by norm_num⟩

end RatEval

/-- Witness for C9 applied at the concrete parsed result. -/
theorem claim_C9_witness :
    tpTemp.timestamp =
      ((tpResult.vars.head?.map Prod.snd).getD
        ⟨.arr [], [], .none⟩).series.head?.map SeriesEntry.timestamp ∧
    tpTemp.timestamp = some 1000 :=
  ⟨claim_C9_timestamp_first_entry.1 tpResult _ tpTemp rfl rfl, rfl⟩

end Havvarsel


namespace Havvarsel

/-- Assembling the envelope does not change the variables mapping. -/
theorem mkResult_vars {kvs : List (String × Json)} {lat lon : Rat}
    {vars : List (PyKey × VarInfo)} {r : ProjectionResult}
    (h : mkResult kvs lat lon vars = .ok r) : r.vars = vars := by
  simp only [mkResult] at h
  split at h
  next glon heq =>
    split at h
    next glat heq2 =>
      injection h with h
      subst h
      rfl
    next e heq2 => exact Except.noConfusion h
  next e heq => exact Except.noConfusion h

/-- The sort applied to a series is a permutation of it. -/
theorem sortSeries_perm (l : List SeriesEntry) : List.Perm (sortSeries l) l :=
  List.perm_insertionSort seriesLe l

/-- The sort preserves the number of entries. -/
theorem sortSeries_length (l : List SeriesEntry) :
    (sortSeries l).length = l.length :=
  (sortSeries_perm l).length_eq

/-- The sorted series is sorted by timestamp. -/
theorem sortSeries_sorted (l : List SeriesEntry) :
    List.Sorted seriesLe (sortSeries l) :=
  List.sorted_insertionSort seriesLe l

/-- The selected current value is None when there are no samples, and is
one of the series values when the samples and the series carry the same
(timestamp, value) pairs. -/
theorem currentOf_spec (series0 : List SeriesEntry) (raws : List RawPoint)
    (now : Rat)
    (hcorr : raws.map (fun p => (p.rawTime, p.value)) =
      series0.map (fun e => (e.timestamp, e.value))) :
    (sortSeries series0 = [] → currentOf raws now = PyObj.none) ∧
    (sortSeries series0 ≠ [] →
      currentOf raws now ∈ (sortSeries series0).map SeriesEntry.value) := by
  have hlen : raws.length = series0.length := by
    have := congrArg List.length hcorr
    simpa using this
  constructor
  · intro hs
    have h0 : series0 = [] := by
      have hll := sortSeries_length series0
      rw [hs] at hll
      exact List.length_eq_zero.mp hll.symm
    have hr : raws = [] := by
      rw [h0] at hlen
      exact List.length_eq_zero.mp hlen
    subst hr
    rfl
  · intro hs
    have hraws : raws ≠ [] := by
      intro h0
      apply hs
      rw [h0] at hlen
      have h0' : series0 = [] := List.length_eq_zero.mp hlen.symm
      rw [h0']
      rfl
    obtain ⟨l₁, p, l₂, hsplit, hpm, -, -⟩ :=
      pyMinBy_split (fun x : RawPoint => |x.rawTime - now|) raws hraws
    have hcur : currentOf raws now = p.value := by
      unfold currentOf nearestPoint
      rw [hpm]
    have hpmem : p ∈ raws := by
      rw [hsplit]
      exact List.mem_append_right _ (List.mem_cons_self _ _)
    have hv : p.value ∈ raws.map RawPoint.value := List.mem_map_of_mem _ hpmem
    have hmapeq : raws.map RawPoint.value = series0.map SeriesEntry.value := by
      have := congrArg (List.map Prod.snd) hcorr
      simpa [List.map_map, Function.comp] using this
    rw [hcur]
    have hv' : p.value ∈ series0.map SeriesEntry.value := hmapeq ▸ hv
    exact ((sortSeries_perm series0).map SeriesEntry.value).mem_iff.mpr hv'

/-- A successfully parsed data point of the variables-array branch yields
a series entry and a raw point with the same timestamp and value. -/
theorem procPoint_pair {p : Json} {pr : SeriesEntry × RawPoint}
    (h : procPoint p = .ok pr) :
    pr.2.rawTime = pr.1.timestamp ∧ pr.2.value = pr.1.value := by
  cases p with
  | obj pkvs =>
      simp only [procPoint] at h
      split at h
      next q heq =>
        injection h with h
        subst h
        exact ⟨rfl, rfl⟩
      next e heq => exact Except.noConfusion h
  | null => cases h
  | bool b => cases h
  | num q => cases h
  | str s => cases h
  | arr xs => cases h

/-- The series entries and raw points produced from one variable's data
points carry the same (timestamp, value) pairs. -/
theorem procPoints_pairs {pts : List Json} {prs : List (SeriesEntry × RawPoint)}
    (h : procPoints pts = .ok prs) :
    (prs.map Prod.snd).map (fun p => (p.rawTime, p.value)) =
      (prs.map Prod.fst).map (fun e => (e.timestamp, e.value)) := by
  induction pts generalizing prs with
  | nil =>
      injection h with h
      subst h
      rfl
  | cons p ps ih =>
      unfold procPoints at h
      split at h
      next pr heq =>
        split at h
        next prs' heq2 =>
          injection h with h
          subst h
          obtain ⟨h1, h2⟩ := procPoint_pair heq
          simp [h1, h2, ih heq2]
        next e heq2 => exact Except.noConfusion h
      next e heq => exact Except.noConfusion h

/-- Every entry of a replace-or-append dict assignment is the assigned
pair or an entry of the original dict. -/
theorem setOrReplace_mem {k : PyKey} {vi : VarInfo} {l : List (PyKey × VarInfo)}
    {p : PyKey × VarInfo} (hp : p ∈ setOrReplace k vi l) :
    p = (k, vi) ∨ p ∈ l := by
  induction l with
  | nil => simpa [setOrReplace] using hp
  | cons q rest ih =>
      obtain ⟨k', a⟩ := q
      unfold setOrReplace at hp
      by_cases hk : k' = k
      · rw [if_pos hk] at hp
        rcases List.mem_cons.mp hp with h | h
        · left; rw [h, hk]
        · right; exact List.mem_cons_of_mem _ h
      · rw [if_neg hk] at hp
        rcases List.mem_cons.mp hp with h | h
        · right; rw [h]; exact List.mem_cons_self _ _
        · rcases ih h with h' | h'
          · left; exact h'
          · right; exact List.mem_cons_of_mem _ h'

/-- Processing one element of the variables array preserves the
per-variable current-value guarantee. -/
theorem procVariable_spec {now : Rat} {vars vars' : List (PyKey × VarInfo)}
    {v : Json} (h : procVariable now vars v = .ok vars')
    (hvars : ∀ p ∈ vars, CurrentSpec p.2) : ∀ p ∈ vars', CurrentSpec p.2 := by
  cases v with
  | obj vkvs =>
      simp only [procVariable] at h
      by_cases ht : (varName vkvs).truthy
      · rw [if_pos ht] at h
        split at h
        next pts heq =>
          split at h
          next prs heq2 =>
            split at h
            next k heq3 =>
              injection h with h
              subst h
              intro p hp
              rcases setOrReplace_mem hp with rfl | hmem
              · have hspec := currentOf_spec (prs.map Prod.fst)
                  (prs.map Prod.snd) now (procPoints_pairs heq2)
                exact ⟨hspec.1, hspec.2⟩
              · exact hvars p hmem
            next e heq3 => exact Except.noConfusion h
          next e heq2 => exact Except.noConfusion h
        next e heq => exact Except.noConfusion h
      · rw [if_neg ht] at h
        injection h with h
        subst h
        exact hvars
  | null => cases h
  | bool b => cases h
  | num q => cases h
  | str s => cases h
  | arr xs => cases h

/-- The variables-array loop preserves the current-value guarantee. -/
theorem procVariables_spec {now : Rat} {vs : List Json} :
    ∀ {vars vars' : List (PyKey × VarInfo)},
      procVariables now vars vs = .ok vars' →
      (∀ p ∈ vars, CurrentSpec p.2) → ∀ p ∈ vars', CurrentSpec p.2 := by
  induction vs with
  | nil =>
      intro vars vars' h hvars
      injection h with h
      subst h
      exact hvars
  | cons v vs ih =>
      intro vars vars' h hvars
      unfold procVariables at h
      split at h
      next vars1 heq => exact ih h (procVariable_spec heq hvars)
      next e heq => exact Except.noConfusion h

end Havvarsel

namespace Havvarsel

/-- A property of accumulator records that holds for every stored record,
holds for the default record after one append, and is preserved by
appends, holds for every record after a dict update. -/
theorem updOrInsert_forall {Q : VarAcc → Prop} {k : PyKey} {f : VarAcc → VarAcc}
    {dflt : VarAcc} {l : VarMapB}
    (hl : ∀ p ∈ l, Q p.2) (hd : Q (f dflt)) (hf : ∀ a, Q a → Q (f a)) :
    ∀ p ∈ updOrInsert k f dflt l, Q p.2 := by
  induction l with
  | nil =>
      intro p hp
      unfold updOrInsert at hp
      rw [List.mem_singleton.mp hp]
      exact hd
  | cons q rest ih =>
      obtain ⟨k', a⟩ := q
      intro p hp
      unfold updOrInsert at hp
      by_cases hk : k' = k
      · rw [if_pos hk] at hp
        rcases List.mem_cons.mp hp with rfl | hmem
        · exact hf a (hl (k', a) (List.mem_cons_self _ _))
        · exact hl p (List.mem_cons_of_mem _ hmem)
      · rw [if_neg hk] at hp
        rcases List.mem_cons.mp hp with rfl | hmem
        · exact hl (k', a) (List.mem_cons_self _ _)
        · exact ih (fun p hp => hl p (List.mem_cons_of_mem _ hp)) p hmem

/-- Processing one keyed sample preserves any append-invariant property
of the accumulator records. -/
theorem procItem_forall {Q : VarAcc → Prop} {vm : List (String × Json)}
    {rawT : Rat} {vars vars' : VarMapB} {item : Json}
    (h : procItem vm rawT vars item = .ok vars')
    (hvars : ∀ p ∈ vars, Q p.2)
    (hinit : ∀ k v, Q (appendSample rawT v (initVarAcc vm k)))
    (hstep : ∀ a v, Q a → Q (appendSample rawT v a)) :
    ∀ p ∈ vars', Q p.2 := by
  cases item with
  | obj ikvs =>
      simp only [procItem] at h
      by_cases ht : (objGetD ikvs "key" .null).truthy
      · rw [if_pos ht] at h
        split at h
        next k heq =>
          injection h with h
          subst h
          exact updOrInsert_forall hvars (hinit k _) (fun a ha => hstep a _ ha)
        next e heq => exact Except.noConfusion h
      · rw [if_neg ht] at h
        injection h with h
        subst h
        exact hvars
  | null => cases h
  | bool b => cases h
  | num q => cases h
  | str s => cases h
  | arr xs => cases h

/-- The inner sample loop preserves any append-invariant property. -/
theorem procItems_forall {Q : VarAcc → Prop} {vm : List (String × Json)}
    {rawT : Rat} {items : List Json} :
    ∀ {vars vars' : VarMapB},
      procItems vm rawT vars items = .ok vars' →
      (∀ p ∈ vars, Q p.2) →
      (∀ k v, Q (appendSample rawT v (initVarAcc vm k))) →
      (∀ a v, Q a → Q (appendSample rawT v a)) →
      ∀ p ∈ vars', Q p.2 := by
  induction items with
  | nil =>
      intro vars vars' h hvars _ _
      injection h with h
      subst h
      exact hvars
  | cons item rest ih =>
      intro vars vars' h hvars hinit hstep
      unfold procItems at h
      split at h
      next vars1 heq =>
        exact ih h (procItem_forall heq hvars hinit hstep) hinit hstep
      next e heq => exact Except.noConfusion h

/-- Processing one time point preserves any append-invariant property. -/
theorem procTimePoint_forall {Q : VarAcc → Prop} {vm : List (String × Json)}
    {vars vars' : VarMapB} {tp : Json}
    (h : procTimePoint vm vars tp = .ok vars')
    (hvars : ∀ p ∈ vars, Q p.2)
    (hinit : ∀ rawT k v, Q (appendSample rawT v (initVarAcc vm k)))
    (hstep : ∀ a rawT v, Q a → Q (appendSample rawT v a)) :
    ∀ p ∈ vars', Q p.2 := by
  cases tp with
  | obj tkvs =>
      simp only [procTimePoint] at h
      split at h
      next rawT heq =>
        split at h
        next items heq2 =>
          exact procItems_forall h hvars (hinit rawT)
            (fun a v ha => hstep a rawT v ha)
        next e heq2 => exact Except.noConfusion h
      next e heq => exact Except.noConfusion h
  | null => cases h
  | bool b => cases h
  | num q => cases h
  | str s => cases h
  | arr xs => cases h

/-- The time-point loop preserves any append-invariant property. -/
theorem procTimePoints_forall {Q : VarAcc → Prop} {vm : List (String × Json)}
    {tps : List Json} :
    ∀ {vars vars' : VarMapB},
      procTimePoints vm vars tps = .ok vars' →
      (∀ p ∈ vars, Q p.2) →
      (∀ rawT k v, Q (appendSample rawT v (initVarAcc vm k))) →
      (∀ a rawT v, Q a → Q (appendSample rawT v a)) →
      ∀ p ∈ vars', Q p.2 := by
  induction tps with
  | nil =>
      intro vars vars' h hvars _ _
      injection h with h
      subst h
      exact hvars
  | cons tp rest ih =>
      intro vars vars' h hvars hinit hstep
      unfold procTimePoints at h
      split at h
      next vars1 heq =>
        exact ih h (procTimePoint_forall heq hvars hinit hstep) hinit hstep
      next e heq => exact Except.noConfusion h

/-- Every variable produced by the time-point-major branch satisfies the
current-value guarantee. -/
theorem parseDataFormat_spec {vm : List (String × Json)} {now lat lon : Rat}
    {kvs : List (String × Json)} {r : ProjectionResult}
    (h : parseDataFormat vm now lat lon kvs = .ok r) :
    ∀ p ∈ r.vars, CurrentSpec p.2 := by
  simp only [parseDataFormat] at h
  split at h
  next tps heq =>
    split at h
    next vars heq2 =>
      have hr := mkResult_vars h
      have hQ : ∀ p ∈ vars, p.2.raw_data.map (fun q => (q.rawTime, q.value)) =
          p.2.series.map (fun e => (e.timestamp, e.value)) := by
        refine @procTimePoints_forall
            (fun a => a.raw_data.map (fun q => (q.rawTime, q.value)) =
              a.series.map (fun e => (e.timestamp, e.value)))
            vm tps [] vars heq2 ?_ ?_ ?_
        · simp
        · intro rawT k v
          simp [appendSample, initVarAcc]
        · intro a rawT v ha
          simp [appendSample, ha]
      intro p hp
      rw [hr] at hp
      obtain ⟨q, hq, rfl⟩ := List.mem_map.mp hp
      have hspec := currentOf_spec q.2.series q.2.raw_data now (hQ q hq)
      exact ⟨hspec.1, hspec.2⟩
    next e heq2 => exact Except.noConfusion h
  next e heq => exact Except.noConfusion h

/-- Every variable produced by the variables-array branch satisfies the
current-value guarantee. -/
theorem parseTPF_spec {now lat lon : Rat} {data : Json} {r : ProjectionResult}
    (h : parseTemperatureprojectionFormat now lat lon data = .ok r) :
    ∀ p ∈ r.vars, CurrentSpec p.2 := by
  cases data with
  | obj kvs =>
      simp only [parseTemperatureprojectionFormat] at h
      split at h
      next vlist heq =>
        split at h
        next vars heq2 =>
          have hr := mkResult_vars h
          intro p hp
          rw [hr] at hp
          exact procVariables_spec heq2 (by simp) p hp
        next e heq2 => exact Except.noConfusion h
      next e heq => exact Except.noConfusion h
  | null => cases h
  | bool b => cases h
  | num q => cases h
  | str s => cases h
  | arr xs => cases h

/-- C5: for every variable of any successfully parsed result, whichever
branch produced it: an empty series leaves `current` absent (and parsing
raises no error for it), and a non-empty series makes `current` one of
the values stored among that variable's input samples (the series holds
exactly the parsed input samples, and nearest-sample resolution selects
one of them). -/
theorem claim_C5_current_membership (vm : List (String × Json))
    (now lat lon : Rat) (data : Json) (r : ProjectionResult)
    (h : parseProjectionResponse vm now lat lon data = .ok r) :
    ∀ p ∈ r.vars, CurrentSpec p.2 := by
  cases data with
  | obj kvs =>
      simp only [parseProjectionResponse] at h
      split at h
      · exact parseTPF_spec h
      · exact parseDataFormat_spec h
  | null => cases h
  | bool b => cases h
  | num q => cases h
  | str s => cases h
  | arr xs => cases h

end Havvarsel

namespace Havvarsel

/-- A converted sample value is always a float or None. -/
theorem valueFloat_floats (v : Json) : isFloatOrNoneB (valueFloat v) = true := by
  unfold valueFloat
  split <;> rfl

/-- Python `min` returns an element of its input. -/
theorem pyMinBy_mem {key : α → Rat} {l : List α} {a : α}
    (h : pyMinBy key l = some a) : a ∈ l := by
  cases l with
  | nil => cases h
  | cons x xs =>
      obtain ⟨l₁, r, l₂, hs, hf, -, -⟩ :=
        pyMinBy_split key (x :: xs) (List.cons_ne_nil _ _)
      rw [hf] at h
      injection h with h
      subst h
      rw [hs]
      exact List.mem_append_right _ (List.mem_cons_self _ _)

/-- The selected current value is a float or None whenever all raw sample
values are. -/
theorem currentOf_floats {raws : List RawPoint} {now : Rat}
    (h : ∀ q ∈ raws, isFloatOrNoneB q.value = true) :
    isFloatOrNoneB (currentOf raws now) = true := by
  unfold currentOf
  split
  next p hp =>
    have hp' : pyMinBy (fun x : RawPoint => |x.rawTime - now|) raws = some p := hp
    exact h p (pyMinBy_mem hp')
  next => rfl

/-- C7 amended: in the time-point-major branch every series entry value
and every `current` is a float or absent (value strings are parsed and
failures collapse to None before storage); the variables-array branch
passes decoded values through verbatim, so the guarantee holds only for
the time-point-major branch (see the counterexample). -/
theorem claim_C7_floats_time_point_branch (vm : List (String × Json))
    (now lat lon : Rat) (kvs : List (String × Json)) (r : ProjectionResult)
    (h : parseDataFormat vm now lat lon kvs = .ok r) :
    ∀ p ∈ r.vars, (∀ e ∈ p.2.series, isFloatOrNoneB e.value = true) ∧
      isFloatOrNoneB p.2.current = true := by
  simp only [parseDataFormat] at h
  split at h
  next tps heq =>
    split at h
    next vars heq2 =>
      have hr := mkResult_vars h
      have hQ : ∀ p ∈ vars, (∀ e ∈ p.2.series, isFloatOrNoneB e.value = true) ∧
          (∀ q ∈ p.2.raw_data, isFloatOrNoneB q.value = true) := by
        refine @procTimePoints_forall
            (fun a => (∀ e ∈ a.series, isFloatOrNoneB e.value = true) ∧
              (∀ q ∈ a.raw_data, isFloatOrNoneB q.value = true))
            vm tps [] vars heq2 ?_ ?_ ?_
        · simp
        · intro rawT k v
          simp [appendSample, initVarAcc, valueFloat_floats]
        · intro a rawT v ha
          obtain ⟨h1, h2⟩ := ha
          constructor
          · intro e he
            have he2 : e ∈ a.series ∨
                e = { timestamp := rawT, value := valueFloat v } := by
              simpa [appendSample] using he
            rcases he2 with he' | rfl
            · exact h1 e he'
            · exact valueFloat_floats v
          · intro q hq
            have hq2 : q ∈ a.raw_data ∨
                q = { rawTime := rawT, value := valueFloat v } := by
              simpa [appendSample] using hq
            rcases hq2 with hq' | rfl
            · exact h2 q hq'
            · exact valueFloat_floats v
      intro p hp
      rw [hr] at hp
      obtain ⟨q, hq, rfl⟩ := List.mem_map.mp hp
      obtain ⟨h1, h2⟩ := hQ q hq
      constructor
      · intro e he
        exact h1 e ((sortSeries_perm q.2.series).mem_iff.mp he)
      · exact currentOf_floats h2
    next e heq2 => exact Except.noConfusion h
  next e heq => exact Except.noConfusion h

section RatEvalB

attribute [local semireducible] Rat.mul Rat.sub Rat.inv Rat.add Rat.ofScientific

/-- Witness for C5 at the concrete parsed temperature variable. -/
theorem claim_C5_witness :
    CurrentSpec { metadata := Json.arr []
                , series := [⟨1000, .float (.finite (21/2))⟩,
                             ⟨2000, .float (.finite 11)⟩]
                , current := .float (.finite 11) } :=
  claim_C5_current_membership [] 1900 60 5 tpPayload tpResult rfl
    (PyKey.str "temperature",
      { metadata := Json.arr []
      , series := [⟨1000, .float (.finite (21/2))⟩, ⟨2000, .float (.finite 11)⟩]
      , current := .float (.finite 11) })
    (List.mem_singleton.mpr rfl)

/-- C7 counterexample: the variables-array branch stores the decoded
string value of a sample unconverted, both in the series entry and in
`current`: the parsed result of `vaPayload` holds a raw string where the
uniform model promises float-or-absent. -/
theorem claim_C7_counterexample :
    parseProjectionResponse [] 1900 60 5 vaPayload = .ok vaResult ∧
    vaResult.vars.map
        (fun p => (p.2.series.map fun e => isFloatOrNoneB e.value,
                   isFloatOrNoneB p.2.current)) = [([false], false)] :=
  ⟨rfl, rfl⟩

/-- Witness for the amended C7 at the concrete time-point-major payload. -/
theorem claim_C7_witness :
    (∀ e ∈ ([⟨1000, PyObj.float (.finite (21/2))⟩,
             ⟨2000, PyObj.float (.finite 11)⟩] : List SeriesEntry),
        isFloatOrNoneB e.value = true) ∧
    isFloatOrNoneB (PyObj.float (.finite 11)) = true :=
  claim_C7_floats_time_point_branch [] 1900 60 5
    [("data", Json.arr [
      .obj [("rawTime", .num 1000), ("data", .arr [
        .obj [("key", .str "temperature"), ("value", .str "10.5")]])],
      .obj [("rawTime", .num 2000), ("data", .arr [
        .obj [("key", .str "temperature"), ("value", .str "11.0")]])]])]
    tpResult rfl
    (PyKey.str "temperature",
      { metadata := Json.arr []
      , series := [⟨1000, .float (.finite (21/2))⟩, ⟨2000, .float (.finite 11)⟩]
      , current := .float (.finite 11) })
    (List.mem_singleton.mpr rfl)

end RatEvalB

end Havvarsel

namespace Havvarsel

/-- Well-shaped data points all parse, one pair per point. -/
theorem procPoints_ok {pts : List Json} (h : ∀ p ∈ pts, PointShape p) :
    ∃ prs, procPoints pts = .ok prs ∧ prs.length = pts.length := by
  induction pts with
  | nil => exact ⟨[], rfl, rfl⟩
  | cons p ps ih =>
      obtain ⟨pkvs, q, rfl, hq⟩ := h p (List.mem_cons_self _ _)
      obtain ⟨prs, hps, hlen⟩ := ih (fun p hp => h p (List.mem_cons_of_mem _ hp))
      have hp1 : procPoint (.obj pkvs) = .ok
          ({ timestamp := q, value := PyObj.ofJson (objGetD pkvs "value" .null) },
           { rawTime := q, value := PyObj.ofJson (objGetD pkvs "value" .null) }) := by
        simp [procPoint, hq]
      refine ⟨({ timestamp := q, value := PyObj.ofJson (objGetD pkvs "value" .null) },
               { rawTime := q, value := PyObj.ofJson (objGetD pkvs "value" .null) })
          :: prs, ?_, by simp [hlen]⟩
      unfold procPoints
      rw [hp1, hps]

/-- Assigning a fresh key appends the pair at the end. -/
theorem setOrReplace_fresh {k : PyKey} {vi : VarInfo} :
    ∀ {l : List (PyKey × VarInfo)}, (∀ p ∈ l, p.1 ≠ k) →
      setOrReplace k vi l = l ++ [(k, vi)] := by
  intro l
  induction l with
  | nil => intro _; rfl
  | cons q rest ih =>
      intro h
      obtain ⟨k', a⟩ := q
      unfold setOrReplace
      rw [if_neg (h (k', a) (List.mem_cons_self _ _))]
      rw [ih (fun p hp => h p (List.mem_cons_of_mem _ hp))]
      simp

/-- The grid field access succeeds on a falsy or object grid value. -/
theorem gridField_ok (cg : Json) (k : String) (dflt : Rat)
    (h : cg.truthy = false ∨ ∃ gkvs, cg = .obj gkvs) :
    ∃ g, gridField cg k dflt = .ok g := by
  rcases h with h | ⟨gkvs, rfl⟩
  · exact ⟨.num dflt, by simp [gridField, h]⟩
  · by_cases ht : (Json.obj gkvs).truthy = true
    · exact ⟨objGetD gkvs k .null, by simp [gridField, ht]⟩
    · exact ⟨.num dflt, by simp [gridField, ht]⟩

/-- With a well-formed grid value the envelope is assembled successfully
around any variables mapping. -/
theorem mkResult_ok {kvs : List (String × Json)} {lat lon : Rat}
    (hgrid : GridOk kvs lat lon) (vars : List (PyKey × VarInfo)) :
    ∃ r, mkResult kvs lat lon vars = .ok r ∧ r.vars = vars := by
  obtain ⟨glon, h1⟩ := gridField_ok (closestGrid kvs lat lon) "lon" lon hgrid
  obtain ⟨glat, h2⟩ := gridField_ok (closestGrid kvs lat lon) "lat" lat hgrid
  refine ⟨{ vars := vars, nearest_grid := closestGrid kvs lat lon,
            nearest_grid_lon := glon, nearest_grid_lat := glat,
            longitude := lon, latitude := lat }, ?_, rfl⟩
  simp [mkResult, h1, h2]

/-- The variables-array loop on well-shaped elements with pairwise
distinct names, all fresh for the accumulated dict, succeeds and appends
one entry per element, each holding K sorted series entries. -/
theorem procVariables_shape {now : Rat} {K : Nat} :
    ∀ (vs : List Json) (vars : List (PyKey × VarInfo)),
      (∀ v ∈ vs, VarShape K v) →
      (vs.map varNameOf).Nodup →
      (∀ v ∈ vs, ∀ p ∈ vars, ∀ s, varNameOf v = .str s → p.1 ≠ .str s) →
      ∃ vars', procVariables now vars vs = .ok vars' ∧
        vars'.length = vars.length + vs.length ∧
        ∀ p ∈ vars', p ∈ vars ∨
          (p.2.series.length = K ∧ List.Sorted seriesLe p.2.series) := by
  intro vs
  induction vs with
  | nil =>
      intro vars _ _ _
      exact ⟨vars, rfl, by simp, fun p hp => Or.inl hp⟩
  | cons v vs ih =>
      intro vars hshape hnodup hfresh
      obtain ⟨vkvs, s, rfl, hname, hs, pts, hiter, hK, hpts⟩ :=
        hshape v (List.mem_cons_self _ _)
      obtain ⟨prs, hprs, hplen⟩ := procPoints_ok hpts
      have ht : (varName vkvs).truthy = true := by
        rw [hname]
        simp [Json.truthy, hs]
      have hnm : varNameOf (.obj vkvs) = .str s := hname
      have hhk : pyHashKey (varName vkvs) = .ok (.str s) := by
        rw [hname]
        exact rfl
      have hfresh0 : ∀ p ∈ vars, p.1 ≠ PyKey.str s := by
        intro p hp
        exact hfresh _ (List.mem_cons_self _ _) p hp s hnm
      have hstep : procVariable now vars (.obj vkvs) = .ok (vars ++
          [(PyKey.str s,
            { metadata := objGetD vkvs "metadata" (.arr [])
            , series := sortSeries (prs.map Prod.fst)
            , current := currentOf (prs.map Prod.snd) now })]) := by
        simp only [procVariable, ht, if_true, hiter, hprs, hhk]
        rw [setOrReplace_fresh hfresh0]
      have hnotin : Json.str s ∉ vs.map varNameOf := by
        have := hnodup
        rw [List.map_cons, List.nodup_cons] at this
        exact hnm ▸ this.1
      obtain ⟨vars', hproc, hlen, hent⟩ :=
        ih (vars ++ [(PyKey.str s,
            { metadata := objGetD vkvs "metadata" (.arr [])
            , series := sortSeries (prs.map Prod.fst)
            , current := currentOf (prs.map Prod.snd) now })])
          (fun v hv => hshape v (List.mem_cons_of_mem _ hv))
          (by
            have := hnodup
            rw [List.map_cons, List.nodup_cons] at this
            exact this.2)
          (by
            intro v' hv' p hp s' hs'
            rcases List.mem_append.mp hp with hp | hp
            · exact hfresh v' (List.mem_cons_of_mem _ hv') p hp s' hs'
            · rw [List.mem_singleton.mp hp]
              intro hcon
              apply hnotin
              have hss : s = s' := by
                simpa using hcon
              rw [hss, ← hs']
              exact List.mem_map_of_mem _ hv')
      refine ⟨vars', ?_, ?_, ?_⟩
      · unfold procVariables
        rw [hstep]
        exact hproc
      · rw [hlen]
        simp only [List.length_append, List.length_cons, List.length_nil]
        omega
      · intro p hp
        rcases hent p hp with hmem | hgood
        · rcases List.mem_append.mp hmem with hmem | hmem
          · exact Or.inl hmem
          · right
            rw [List.mem_singleton.mp hmem]
            constructor
            · rw [sortSeries_length, List.length_map, hplen, hK]
            · exact sortSeries_sorted _
        · exact Or.inr hgood

/-- C3 amended: parsing a variables-array payload of N well-shaped
elements with pairwise distinct names, each carrying K data points,
yields exactly N variables, each with exactly K series entries sorted
ascending by timestamp.  (Without the distinctness condition the claim
fails: duplicate names collapse into one dict entry, see the
counterexample.) -/
theorem claim_C3_variables_array_counts (vm : List (String × Json))
    (now lat lon : Rat) (kvs : List (String × Json)) (elems : List Json)
    (K : Nat)
    (hv : objLookup kvs "variables" = some (.arr elems))
    (hshape : ∀ v ∈ elems, VarShape K v)
    (hnodup : (elems.map varNameOf).Nodup)
    (hgrid : GridOk kvs lat lon) :
    ∃ r, parseProjectionResponse vm now lat lon (.obj kvs) = .ok r ∧
      r.vars.length = elems.length ∧
      ∀ p ∈ r.vars, p.2.series.length = K ∧ List.Sorted seriesLe p.2.series := by
  obtain ⟨vars', hproc, hlen, hent⟩ :=
    @procVariables_shape now K elems [] hshape hnodup (by simp)
  obtain ⟨r, hmk, hrv⟩ := mkResult_ok hgrid vars'
  refine ⟨r, ?_, ?_, ?_⟩
  · have hget : objGetD kvs "variables" (.arr []) = .arr elems := by
      simp [objGetD, hv]
    simp only [parseProjectionResponse, hv, parseTemperatureprojectionFormat,
      hget, pyIter, hproc, hmk]
  · rw [hrv, hlen]
    simp
  · intro p hp
    rw [hrv] at hp
    rcases hent p hp with hmem | hgood
    · exact absurd hmem (List.not_mem_nil p)
    · exact hgood

end Havvarsel

namespace Havvarsel

section RatEvalC

attribute [local semireducible] Rat.mul Rat.sub Rat.inv Rat.add Rat.ofScientific

/-- C3 counterexample: a variables-array payload with two elements, each
carrying a variable name and one data point, parses into one single
VariableSeries (the second element overwrites the first under the shared
name), not two. -/
theorem claim_C3_counterexample :
    Except.map (fun r => r.vars.length)
        (parseProjectionResponse [] 0 0 0 dupPayload) = .ok 1 ∧
    (match jGetD dupPayload "variables" .null with
      | .arr xs => xs.length
      | _ => 0) = 2 ∧
    (match jGetD dupPayload "variables" .null with
      | .arr xs => xs.map varNameOf
      | _ => []) = [.str "temperature", .str "temperature"] :=
  ⟨rfl, rfl, rfl⟩

end RatEvalC

/-- Witness for the amended C3 at a one-element variables-array payload
with one data point. -/
theorem claim_C3_witness :
    ∃ r, parseProjectionResponse [] 1900 60 5
        (.obj [("variables", Json.arr [
          .obj [("variableName", .str "temperature"), ("metadata", .arr []),
                ("data", .arr [.obj [("rawTime", .num 2000),
                                     ("value", .str "11.5")]])]])]) = .ok r ∧
      r.vars.length =
        [Json.obj [("variableName", .str "temperature"), ("metadata", .arr []),
          ("data", .arr [.obj [("rawTime", .num 2000),
                               ("value", .str "11.5")]])]].length ∧
      ∀ p ∈ r.vars, p.2.series.length = 1 ∧ List.Sorted seriesLe p.2.series :=
  claim_C3_variables_array_counts [] 1900 60 5
    [("variables", Json.arr [
      .obj [("variableName", .str "temperature"), ("metadata", .arr []),
            ("data", .arr [.obj [("rawTime", .num 2000),
                                 ("value", .str "11.5")]])]])]
    [Json.obj [("variableName", .str "temperature"), ("metadata", .arr []),
      ("data", .arr [.obj [("rawTime", .num 2000), ("value", .str "11.5")]])]]
    1 rfl
    (by
      intro v hv
      rw [List.mem_singleton.mp hv]
      exact ⟨[("variableName", .str "temperature"), ("metadata", .arr []),
              ("data", .arr [.obj [("rawTime", .num 2000),
                                   ("value", .str "11.5")]])],
             "temperature", rfl, rfl, by decide,
             [.obj [("rawTime", .num 2000), ("value", .str "11.5")]], rfl, rfl,
             by
               intro p hp
               rw [List.mem_singleton.mp hp]
               exact ⟨[("rawTime", .num 2000), ("value", .str "11.5")],
                      2000, rfl, rfl⟩⟩)
    (by simp)
    (Or.inr ⟨[("lat", .num 60), ("lon", .num 5)], rfl⟩)

end Havvarsel


namespace Havvarsel

/-- Lookup after a dict update: the updated key maps to the transformed
record, every other key is untouched. -/
theorem lookupAcc_updOrInsert (k : PyKey) (f : VarAcc → VarAcc) (dflt : VarAcc)
    (l : VarMapB) (k' : PyKey) :
    lookupAcc (updOrInsert k f dflt l) k' =
      if k' = k then some (f ((lookupAcc l k).getD dflt)) else lookupAcc l k' := by
  induction l with
  | nil =>
      by_cases hk : k' = k
      · simp [updOrInsert, lookupAcc, hk]
      · simp [updOrInsert, lookupAcc, hk, Ne.symm hk]
  | cons q rest ih =>
      obtain ⟨k'', a⟩ := q
      by_cases h1 : k'' = k
      · subst h1
        by_cases h2 : k' = k''
        · subst h2
          simp [updOrInsert, lookupAcc]
        · simp [updOrInsert, lookupAcc, h2, Ne.symm h2]
      · by_cases h2 : k' = k''
        · subst h2
          simp [updOrInsert, lookupAcc, h1, Ne.symm h1]
        · simp [updOrInsert, lookupAcc, h1, h2, Ne.symm h2, ih]

/-- Keys present after a dict update come from the update or the dict. -/
theorem keys_updOrInsert_sub {k : PyKey} {f : VarAcc → VarAcc} {dflt : VarAcc}
    {l : VarMapB} {k' : PyKey}
    (h : k' ∈ (updOrInsert k f dflt l).map Prod.fst) :
    k' = k ∨ k' ∈ l.map Prod.fst := by
  induction l with
  | nil => simpa [updOrInsert] using h
  | cons q rest ih =>
      obtain ⟨k'', a⟩ := q
      unfold updOrInsert at h
      by_cases hk : k'' = k
      · rw [if_pos hk] at h
        rw [List.map_cons] at h
        rcases List.mem_cons.mp h with h' | h'
        · right
          rw [List.map_cons, h']
          exact List.mem_cons_self _ _
        · right
          rw [List.map_cons]
          exact List.mem_cons_of_mem _ h'
      · rw [if_neg hk] at h
        rw [List.map_cons] at h
        rcases List.mem_cons.mp h with h' | h'
        · right
          rw [List.map_cons, h']
          exact List.mem_cons_self _ _
        · rcases ih h' with h'' | h''
          · exact Or.inl h''
          · right
            rw [List.map_cons]
            exact List.mem_cons_of_mem _ h''

/-- A dict update preserves distinctness of the keys. -/
theorem updOrInsert_nodup {k : PyKey} {f : VarAcc → VarAcc} {dflt : VarAcc}
    {l : VarMapB} (h : (l.map Prod.fst).Nodup) :
    ((updOrInsert k f dflt l).map Prod.fst).Nodup := by
  induction l with
  | nil => simp [updOrInsert]
  | cons q rest ih =>
      obtain ⟨k'', a⟩ := q
      rw [List.map_cons, List.nodup_cons] at h
      unfold updOrInsert
      by_cases hk : k'' = k
      · rw [if_pos hk]
        rw [List.map_cons, List.nodup_cons]
        exact h
      · rw [if_neg hk]
        rw [List.map_cons, List.nodup_cons]
        constructor
        · intro hmem
          rcases keys_updOrInsert_sub hmem with h' | h'
          · exact hk h'
          · exact h.1 h'
        · exact ih h.2

/-- With distinct keys, first-match lookup finds each stored entry. -/
theorem lookupAcc_of_mem_nodup {l : VarMapB}
    (hnd : (l.map Prod.fst).Nodup) {p : PyKey × VarAcc} (hp : p ∈ l) :
    lookupAcc l p.1 = some p.2 := by
  induction l with
  | nil => exact absurd hp (List.not_mem_nil p)
  | cons q rest ih =>
      obtain ⟨k', a⟩ := q
      rw [List.map_cons, List.nodup_cons] at hnd
      rcases List.mem_cons.mp hp with rfl | hp'
      · simp [lookupAcc]
      · have hmem1 : p.1 ∈ rest.map Prod.fst := List.mem_map_of_mem Prod.fst hp'
        have hne : k' ≠ p.1 := by
          intro hcon
          apply hnd.1
          rw [hcon]
          exact hmem1
        simp only [lookupAcc, if_neg hne]
        exact ih hnd.2 hp'

end Havvarsel

namespace Havvarsel

/-- Processing one well-shaped item appends its sample (if its key is
truthy) to exactly that key's series and raw data. -/
theorem procItem_keyed {vm : List (String × Json)} {rawT : Rat} {vars : VarMapB}
    {item : Json} (hshape : ItemShape item) :
    ∃ vars', procItem vm rawT vars item = .ok vars' ∧
      ((vars.map Prod.fst).Nodup → (vars'.map Prod.fst).Nodup) ∧
      ∀ k, (seriesOf vars' k = seriesOf vars k ++
            (if itemKeyOf item = some k
              then [{ timestamp := rawT, value := valueFloat (itemValueOf item) }]
              else []) ∧
          rawOf vars' k = rawOf vars k ++
            (if itemKeyOf item = some k
              then [{ rawTime := rawT, value := valueFloat (itemValueOf item) }]
              else [])) := by
  obtain ⟨ikvs, rfl, hhash⟩ := hshape
  by_cases ht : (objGetD ikvs "key" .null).truthy
  · obtain ⟨k0, hk0⟩ := hhash ht
    have hio : procItem vm rawT vars (.obj ikvs) = .ok
        (updOrInsert k0 (appendSample rawT (objGetD ikvs "value" .null))
          (initVarAcc vm k0) vars) := by
      simp [procItem, ht, hk0]
    have hkey : itemKeyOf (.obj ikvs) = some k0 := by
      simp [itemKeyOf, jGetD, ht, hk0]
    have hval : itemValueOf (.obj ikvs) = objGetD ikvs "value" .null := by
      simp [itemValueOf, jGetD]
    refine ⟨_, hio, fun hnd => updOrInsert_nodup hnd, ?_⟩
    intro k
    rw [hkey, hval]
    by_cases hk : k = k0
    · subst hk
      constructor
      · cases hv : lookupAcc vars k with
        | some a =>
            simp [seriesOf, lookupAcc_updOrInsert, hv, appendSample]
        | none =>
            simp [seriesOf, lookupAcc_updOrInsert, hv, appendSample, initVarAcc]
      · cases hv : lookupAcc vars k with
        | some a =>
            simp [rawOf, lookupAcc_updOrInsert, hv, appendSample]
        | none =>
            simp [rawOf, lookupAcc_updOrInsert, hv, appendSample, initVarAcc]
    · constructor
      · simp [seriesOf, lookupAcc_updOrInsert, hk, Ne.symm hk]
      · simp [rawOf, lookupAcc_updOrInsert, hk, Ne.symm hk]
  · have hio : procItem vm rawT vars (.obj ikvs) = .ok vars := by
      simp [procItem, ht]
    have hkey : itemKeyOf (.obj ikvs) = Option.none := by
      simp [itemKeyOf, jGetD, ht]
    refine ⟨vars, hio, fun hnd => hnd, ?_⟩
    intro k
    rw [hkey]
    simp

/-- The inner sample loop on well-shaped items appends each keyed sample
to its key's series and raw data, in encounter order. -/
theorem procItems_keyed {vm : List (String × Json)} {rawT : Rat} :
    ∀ {items : List Json} {vars : VarMapB},
      (∀ item ∈ items, ItemShape item) →
      ∃ vars', procItems vm rawT vars items = .ok vars' ∧
        ((vars.map Prod.fst).Nodup → (vars'.map Prod.fst).Nodup) ∧
        ∀ k, (seriesOf vars' k = seriesOf vars k ++
              (items.filterMap fun item =>
                if itemKeyOf item = some k
                then some ({ timestamp := rawT,
                             value := valueFloat (itemValueOf item) } : SeriesEntry)
                else Option.none) ∧
            rawOf vars' k = rawOf vars k ++
              (items.filterMap fun item =>
                if itemKeyOf item = some k
                then some ({ rawTime := rawT,
                             value := valueFloat (itemValueOf item) } : RawPoint)
                else Option.none)) := by
  intro items
  induction items with
  | nil =>
      intro vars _
      exact ⟨vars, rfl, fun h => h, by simp⟩
  | cons item rest ih =>
      intro vars hsh
      obtain ⟨vars1, h1, hnd1, hk1⟩ := procItem_keyed (hsh item (List.mem_cons_self _ _))
      obtain ⟨vars', h2, hnd2, hk2⟩ :=
        @ih vars1 (fun it hit => hsh it (List.mem_cons_of_mem _ hit))
      refine ⟨vars', ?_, fun hnd => hnd2 (hnd1 hnd), ?_⟩
      · unfold procItems
        rw [h1]
        exact h2
      · intro k
        obtain ⟨hs1, hr1⟩ := hk1 k
        obtain ⟨hs2, hr2⟩ := hk2 k
        constructor
        · by_cases hc : itemKeyOf item = some k
          · simp [hs2, hs1, hc, List.filterMap_cons]
          · simp [hs2, hs1, hc, List.filterMap_cons]
        · by_cases hc : itemKeyOf item = some k
          · simp [hr2, hr1, hc, List.filterMap_cons]
          · simp [hr2, hr1, hc, List.filterMap_cons]

/-- Processing one well-shaped time point appends exactly its keyed
samples to each key's series and raw data. -/
theorem procTimePoint_keyed {vm : List (String × Json)} {vars : VarMapB}
    {tp : Json} (hshape : TimePointShape tp) :
    ∃ vars', procTimePoint vm vars tp = .ok vars' ∧
      ((vars.map Prod.fst).Nodup → (vars'.map Prod.fst).Nodup) ∧
      ∀ k, (seriesOf vars' k = seriesOf vars k ++
            (keyedSamplesTP tp k).map
              (fun s => ({ timestamp := s.1, value := valueFloat s.2 } : SeriesEntry)) ∧
          rawOf vars' k = rawOf vars k ++
            (keyedSamplesTP tp k).map
              (fun s => ({ rawTime := s.1, value := valueFloat s.2 } : RawPoint))) := by
  obtain ⟨tkvs, rfl, ⟨q, hq⟩, items, hiter, hitems⟩ := hshape
  obtain ⟨vars', hproc, hnd, hks⟩ := @procItems_keyed vm q items vars hitems
  have htp : procTimePoint vm vars (.obj tkvs) = procItems vm q vars items := by
    simp [procTimePoint, hq, hiter]
  have hti : tpItems (.obj tkvs) = items := by
    simp [tpItems, jGetD, hiter]
  have htr : tpRawTime (.obj tkvs) = q := by
    simp [tpRawTime, jGetD, hq]
  refine ⟨vars', htp ▸ hproc, hnd, ?_⟩
  intro k
  obtain ⟨hs, hr⟩ := hks k
  constructor
  · rw [hs]
    congr 1
    unfold keyedSamplesTP
    rw [hti, htr, List.map_filterMap]
    congr 1
    funext item
    by_cases hc : itemKeyOf item = some k
    · simp [hc]
    · simp [hc]
  · rw [hr]
    congr 1
    unfold keyedSamplesTP
    rw [hti, htr, List.map_filterMap]
    congr 1
    funext item
    by_cases hc : itemKeyOf item = some k
    · simp [hc]
    · simp [hc]

/-- The time-point loop on well-shaped time points appends, per key, the
keyed samples of the input in encounter order. -/
theorem procTimePoints_keyed {vm : List (String × Json)} :
    ∀ {tps : List Json} {vars : VarMapB},
      (∀ tp ∈ tps, TimePointShape tp) →
      ∃ vars', procTimePoints vm vars tps = .ok vars' ∧
        ((vars.map Prod.fst).Nodup → (vars'.map Prod.fst).Nodup) ∧
        ∀ k, (seriesOf vars' k = seriesOf vars k ++
              (keyedSamples k tps).map
                (fun s => ({ timestamp := s.1, value := valueFloat s.2 } : SeriesEntry)) ∧
            rawOf vars' k = rawOf vars k ++
              (keyedSamples k tps).map
                (fun s => ({ rawTime := s.1, value := valueFloat s.2 } : RawPoint))) := by
  intro tps
  induction tps with
  | nil =>
      intro vars _
      exact ⟨vars, rfl, fun h => h, by simp [keyedSamples]⟩
  | cons tp rest ih =>
      intro vars hsh
      obtain ⟨vars1, h1, hnd1, hk1⟩ := procTimePoint_keyed (hsh tp (List.mem_cons_self _ _))
      obtain ⟨vars', h2, hnd2, hk2⟩ :=
        @ih vars1 (fun t ht => hsh t (List.mem_cons_of_mem _ ht))
      refine ⟨vars', ?_, fun hnd => hnd2 (hnd1 hnd), ?_⟩
      · unfold procTimePoints
        rw [h1]
        exact h2
      · intro k
        obtain ⟨hs1, hr1⟩ := hk1 k
        obtain ⟨hs2, hr2⟩ := hk2 k
        constructor
        · rw [hs2, hs1]
          simp [keyedSamples]
        · rw [hr2, hr1]
          simp [keyedSamples]

end Havvarsel

namespace Havvarsel

/-- C4: in the time-point-major branch, malformed sample values do not
abort parsing: a well-shaped payload (objects in the right places; values
arbitrary, including non-numeric, null or absent) parses successfully,
each variable's series is exactly its keyed input samples (one entry per
keyed sample, so the count is unchanged), and every sample whose value
fails float conversion appears as an absent-valued series entry. -/
theorem claim_C4_malformed_values (vm : List (String × Json)) (now lat lon : Rat)
    (kvs : List (String × Json)) (tps : List Json)
    (hv : ∀ xs, objLookup kvs "variables" ≠ some (.arr xs))
    (hd : objLookup kvs "data" = some (.arr tps))
    (hshape : ∀ tp ∈ tps, TimePointShape tp)
    (hgrid : GridOk kvs lat lon) :
    ∃ r, parseProjectionResponse vm now lat lon (.obj kvs) = .ok r ∧
      ∀ p ∈ r.vars,
        List.Perm p.2.series ((keyedSamples p.1 tps).map
          (fun s => ({ timestamp := s.1, value := valueFloat s.2 } : SeriesEntry))) ∧
        p.2.series.length = (keyedSamples p.1 tps).length ∧
        ∀ s ∈ keyedSamples p.1 tps, pyFloatOfJson s.2 = Option.none →
          ({ timestamp := s.1, value := PyObj.none } : SeriesEntry) ∈ p.2.series := by
  obtain ⟨varsB, hproc, hnd, hks⟩ := @procTimePoints_keyed vm tps [] hshape
  obtain ⟨r, hmk, hrv⟩ :=
    mkResult_ok hgrid (varsB.map fun p => (p.1, finalizeVar now p.2))
  have hdisp := parse_obj_not_variables vm now lat lon kvs hv
  refine ⟨r, ?_, ?_⟩
  · rw [hdisp]
    have hget : objGetD kvs "data" (.arr []) = .arr tps := by
      simp [objGetD, hd]
    simp only [parseDataFormat, hget, pyIter, hproc, hmk]
  · intro p hp
    rw [hrv] at hp
    obtain ⟨q, hq, rfl⟩ := List.mem_map.mp hp
    have hnd0 : (varsB.map Prod.fst).Nodup := hnd (by simp)
    have hlk : lookupAcc varsB q.1 = some q.2 := lookupAcc_of_mem_nodup hnd0 hq
    have hser : q.2.series = (keyedSamples q.1 tps).map
        (fun s => ({ timestamp := s.1, value := valueFloat s.2 } : SeriesEntry)) := by
      have hthis := (hks q.1).1
      have h1 : seriesOf varsB q.1 = q.2.series := by simp [seriesOf, hlk]
      rw [h1] at hthis
      simpa [seriesOf, lookupAcc] using hthis
    have hperm : List.Perm (sortSeries q.2.series)
        ((keyedSamples q.1 tps).map
          (fun s => ({ timestamp := s.1, value := valueFloat s.2 } : SeriesEntry))) :=
      hser ▸ sortSeries_perm q.2.series
    refine ⟨hperm, ?_, ?_⟩
    · show (sortSeries q.2.series).length = (keyedSamples q.1 tps).length
      rw [hperm.length_eq, List.length_map]
    · intro s hs hnone
      have hvf : valueFloat s.2 = PyObj.none := by simp [valueFloat, hnone]
      have hmem : ({ timestamp := s.1, value := valueFloat s.2 } : SeriesEntry) ∈
          (keyedSamples q.1 tps).map
            (fun s => ({ timestamp := s.1, value := valueFloat s.2 } : SeriesEntry)) :=
        List.mem_map_of_mem _ hs
      rw [hvf] at hmem
      exact hperm.mem_iff.mpr hmem

end Havvarsel

namespace Havvarsel

/-- Witness for C4 at a concrete payload whose first sample value is the
non-numeric string `abc`. -/
theorem claim_C4_witness :
    ∃ r, parseProjectionResponse [] 1900 60 5
        (.obj [("data", Json.arr [
          .obj [("rawTime", .num 1000), ("data", .arr [
            .obj [("key", .str "temperature"), ("value", .str "abc")]])],
          .obj [("rawTime", .num 2000), ("data", .arr [
            .obj [("key", .str "temperature"), ("value", .str "11.0")]])]])]) = .ok r ∧
      ∀ p ∈ r.vars,
        List.Perm p.2.series ((keyedSamples p.1 [
            .obj [("rawTime", .num 1000), ("data", .arr [
              .obj [("key", .str "temperature"), ("value", .str "abc")]])],
            .obj [("rawTime", .num 2000), ("data", .arr [
              .obj [("key", .str "temperature"), ("value", .str "11.0")]])]]).map
          (fun s => ({ timestamp := s.1, value := valueFloat s.2 } : SeriesEntry))) ∧
        p.2.series.length = (keyedSamples p.1 [
            .obj [("rawTime", .num 1000), ("data", .arr [
              .obj [("key", .str "temperature"), ("value", .str "abc")]])],
            .obj [("rawTime", .num 2000), ("data", .arr [
              .obj [("key", .str "temperature"), ("value", .str "11.0")]])]]).length ∧
        ∀ s ∈ keyedSamples p.1 [
            .obj [("rawTime", .num 1000), ("data", .arr [
              .obj [("key", .str "temperature"), ("value", .str "abc")]])],
            .obj [("rawTime", .num 2000), ("data", .arr [
              .obj [("key", .str "temperature"), ("value", .str "11.0")]])]],
          pyFloatOfJson s.2 = Option.none →
          ({ timestamp := s.1, value := PyObj.none } : SeriesEntry) ∈ p.2.series :=
  claim_C4_malformed_values [] 1900 60 5
    [("data", Json.arr [
      .obj [("rawTime", .num 1000), ("data", .arr [
        .obj [("key", .str "temperature"), ("value", .str "abc")]])],
      .obj [("rawTime", .num 2000), ("data", .arr [
        .obj [("key", .str "temperature"), ("value", .str "11.0")]])]])]
    [.obj [("rawTime", .num 1000), ("data", .arr [
        .obj [("key", .str "temperature"), ("value", .str "abc")]])],
     .obj [("rawTime", .num 2000), ("data", .arr [
        .obj [("key", .str "temperature"), ("value", .str "11.0")]])]]
    (fun xs h => nomatch h)
    rfl
    (by
      intro tp htp
      rcases List.mem_cons.mp htp with rfl | htp
      · exact ⟨[("rawTime", .num 1000), ("data", .arr [
            .obj [("key", .str "temperature"), ("value", .str "abc")]])],
          rfl, ⟨1000, rfl⟩,
          [.obj [("key", .str "temperature"), ("value", .str "abc")]], rfl,
          by
            intro item hitem
            rw [List.mem_singleton.mp hitem]
            exact ⟨[("key", .str "temperature"), ("value", .str "abc")], rfl,
              fun _ => ⟨.str "temperature", rfl⟩⟩⟩
      rcases List.mem_cons.mp htp with rfl | htp
      · exact ⟨[("rawTime", .num 2000), ("data", .arr [
            .obj [("key", .str "temperature"), ("value", .str "11.0")]])],
          rfl, ⟨2000, rfl⟩,
          [.obj [("key", .str "temperature"), ("value", .str "11.0")]], rfl,
          by
            intro item hitem
            rw [List.mem_singleton.mp hitem]
            exact ⟨[("key", .str "temperature"), ("value", .str "11.0")], rfl,
              fun _ => ⟨.str "temperature", rfl⟩⟩⟩
      · exact absurd htp (List.not_mem_nil tp))
    (Or.inr ⟨[("lat", .num 60), ("lon", .num 5)], rfl⟩)

end Havvarsel
